import Mathlib

/-!
Verification development for the configuration parser (`src/config/parse.c`)
of a pgBackRest-style backup utility.

The C source is shallowly embedded: pure helpers become Lean functions,
the staging table (`ParseOption[]`) becomes a function from option ids to
records, the phases of `configParse` become `Except`-valued functions, and
external collaborators (the generated option metadata table, the INI reader,
the storage layer, `getopt_long`) become explicit parameters, exactly as the
specification lists them as out-of-scope contracts.

Machine reals (`double`) are modelled by exact arithmetic (`Nat`/`Int`/`Rat`);
all concrete values exercised here are small integers where IEEE doubles are
exact, so no claim in scope depends on rounding.
-/

namespace PgbParse

/-- Single-quote character as a string, used to build diagnostic messages. -/
def sq : String := "\x27"

/-- Source of an option value (`ConfigSource` in config.h, an external header;
ordering follows the C enum so that the zero value of a zero-initialized
record is `sDefault`). -/
inductive CfgSource
  | sDefault
  | sParam
  | sConfig
deriving DecidableEq

/-- Option data types (`ConfigDefineOptionType` from the generated metadata). -/
inductive OptType
  | boolean
  | integer
  | float
  | size
  | str
  | path
  | lst
  | hash
deriving DecidableEq

/-- Option sections (`ConfigDefSection` from the generated metadata). -/
inductive OptSec
  | commandLine
  | global
  | stanza
deriving DecidableEq

/-- Error taxonomy of the parser, carrying the formatted message text. -/
inductive ParseError
  | commandInvalid (msg : String)
  | commandRequired (msg : String)
  | paramInvalid (msg : String)
  | optionInvalid (msg : String)
  | optionInvalidValue (msg : String)
  | optionRequired (msg : String)
  | formatError (msg : String)
  | fileMissing (path : String)
  | iniInvalid (msg : String)
  | assertError (msg : String)
deriving DecidableEq

/-- Staging record for one (option id, index): struct `ParseOptionValue`.
Field defaults are the zero values of the zero-initialized C struct. -/
structure ParseOptionValue where
  found : Bool := false
  negate : Bool := false
  reset : Bool := false
  source : CfgSource := .sDefault
  valueList : List String := []
deriving DecidableEq

instance : Inhabited ParseOptionValue := ⟨{}⟩

/-- Staging entry for one option id: struct `ParseOption`.  The C struct holds
`indexListTotal`/`indexListAlloc` alongside the heap array; here the list
carries its own length. -/
structure ParseOption where
  indexList : List ParseOptionValue := []
deriving DecidableEq

instance : Inhabited ParseOption := ⟨{}⟩

/-- `indexListTotal` of a `ParseOption`. -/
def ParseOption.indexListTotal (o : ParseOption) : Nat :=
  o.indexList.length

/-- Direct translation of `parseOptionIdxValue` as written in parse.c: it
returns the element when `optionIdx < indexListTotal` and NULL otherwise.
Note that the body never grows the list, although the function's own comment
block says "Get the indexed value, creating the array to contain it if
needed". -/
def parseOptionIdxValue (o : ParseOption) (optionIdx : Nat) : Option ParseOptionValue :=
  if optionIdx < o.indexListTotal then some (o.indexList.getD optionIdx {}) else none

/-- Modelled from the spec: the staging-table accessor as documented ("Get the
indexed value, creating the array to contain it if needed"; spec section 3:
"The array is grown on demand").  The src body of `parseOptionIdxValue`
instead returns NULL for any index at or past `indexListTotal`; that defect is
recorded under claim C1.  All phases below use this grown-on-demand accessor,
which is the only reading under which the callers (that immediately
dereference the result) are meaningful. -/
def ParseOption.valueAt (o : ParseOption) (idx : Nat) : ParseOptionValue :=
  o.indexList.getD idx {}

/-- Grow the index list with zeroed records so that `idx` is in range
(`memNew`-style zero fill of the gap, as the spec permits until P4 compacts). -/
def ParseOption.grow (o : ParseOption) (idx : Nat) : ParseOption :=
  if idx < o.indexList.length then o
  else ⟨o.indexList ++ List.replicate (idx + 1 - o.indexList.length) ({} : ParseOptionValue)⟩

/-- Write through the grown-on-demand accessor. -/
def ParseOption.setAt (o : ParseOption) (idx : Nat) (v : ParseOptionValue) : ParseOption :=
  ⟨(o.grow idx).indexList.set idx v⟩

/-- The staging table `ParseOption parseOptionList[CFG_OPTION_TOTAL]`. -/
def PTable : Type := Nat → ParseOption

/-- Read the record at (option id, raw index). -/
def tGet (t : PTable) (id idx : Nat) : ParseOptionValue :=
  (t id).valueAt idx

/-- Write the record at (option id, raw index). -/
def tSet (t : PTable) (id idx : Nat) (v : ParseOptionValue) : PTable :=
  fun i => if i = id then (t id).setAt idx v else t i

/-- The all-zero initial staging table. -/
def tEmpty : PTable := fun _ => {}

/-! ### Size parser (`sizeQualifierToMultiplier` and `convertToByte`) -/

/-- ASCII lowercase as performed by `strLower` (C `tolower` on each byte). -/
def lowerC (c : Char) : Char :=
  if 65 ≤ c.toNat && c.toNat ≤ 90 then Char.ofNat (c.toNat + 32) else c

/-- ASCII digit test (C `isdigit`), on the code point: 48 is `'0'`, 57 is
`'9'`. -/
def isDigitC (c : Char) : Bool :=
  48 ≤ c.toNat && c.toNat ≤ 57

/-- Is the character one of the size-qualifier letters. -/
def isQualC (c : Char) : Bool :=
  c = 'b' || c = 'k' || c = 'm' || c = 'g' || c = 't' || c = 'p'

/-- Match against `^[0-9]+(kb|k|mb|m|gb|g|tb|t|pb|p|b)*$` (the argument is the
already-lowercased character list).  Because every single letter
b, k, m, g, t, p occurs as an alternative of the starred group, the group's
star denotes exactly the strings over that six-letter alphabet, so the regex
is one-or-more digits followed by any run of qualifier letters. -/
def sizeMatchL (a : List Char) : Bool :=
  !(a.takeWhile isDigitC).isEmpty && (a.dropWhile isDigitC).all isQualC

/-- `sizeQualifierToMultiplier`: bytes per qualifier letter; any other letter
hits the C `AssertError` branch, modelled as `none`. -/
def sizeQualifierToMultiplier (c : Char) : Option Nat :=
  if c = 'b' then some 1
  else if c = 'k' then some 1024
  else if c = 'm' then some (1024 * 1024)
  else if c = 'g' then some (1024 * 1024 * 1024)
  else if c = 't' then some (1024 * 1024 * 1024 * 1024)
  else if c = 'p' then some (1024 * 1024 * 1024 * 1024 * 1024)
  else none

/-- Decimal digits to a number. -/
def digitsToNat (a : List Char) : Nat :=
  a.foldl (fun n c => n * 10 + (c.toNat - 48)) 0

/-- Is the first list a prefix of the second (C `strstr(s, pre) == s` /
`strBeginsWith`)? -/
def listPfx : List Char → List Char → Bool
  | [], _ => true
  | _ :: _, [] => false
  | c :: cs, d :: ds => c = d && listPfx cs ds

/-- Does `s` start with `pre`? -/
def strStarts (s pre : String) : Bool :=
  listPfx pre.data s.data

/-- Does `s` end with `suf`? -/
def strEnds (s suf : String) : Bool :=
  listPfx suf.data.reverse s.data.reverse

/-- Split a character list on every occurrence of `c` (C `strLstNewSplit`). -/
def splitOnChar (c : Char) : List Char → List (List Char)
  | [] => [[]]
  | x :: xs =>
    if x = c then [] :: splitOnChar c xs
    else
      match splitOnChar c xs with
      | [] => [[x]]
      | h :: t => (x :: h) :: t

/-- Split a string on every occurrence of `c`. -/
def splitChar (c : Char) (s : String) : List String :=
  (splitOnChar c s.data).map String.mk

/-- Model of `varDblForce` restricted to the strings `convertToByte` feeds it:
a (possibly letter-polluted) truncation of a digits-then-qualifiers string.
`cvtZToDouble` fails on any unconsumed character, so it succeeds here exactly
on nonempty all-digit strings. -/
def natParseQ (a : List Char) : Option Nat :=
  if !a.isEmpty && a.all isDigitC then some (digitsToNat a) else none

/-- Errors that can escape `convertToByte`. -/
inductive SizeErr
  | notValid (v : String)
  | convert (v : String)
  | assertQualifier (c : Char)
deriving DecidableEq

/-- The qualifier-position selection of `convertToByte` (`chrPos`): if the
last character is `b`, pick it when the previous character is a digit and the
previous position otherwise; else pick the last character when it is not a
digit; `none` means no qualifier.  The character comparisons `<= '9'` and
`> '9'` are written on the code points (57 is `'9'`). -/
def chrPosOf (a : List Char) : Option Nat :=
  if a.getD (a.length - 1) ' ' = 'b' then
    (if (a.getD (a.length - 2) ' ').toNat ≤ 57 then some (a.length - 1) else some (a.length - 2))
  else if 57 < (a.getD (a.length - 1) ' ').toNat then some (a.length - 1)
  else none

/-- Body of `convertToByte` after the `strLower(strDup(*value))` copy:
`lower` is the lowered character array, `orig` the original value (quoted by
the `FormatError`).  Returns the rewritten value string and the byte count
(`*value` and `*valueDbl` after the call).  `double` arithmetic is modelled
exactly: the parsed number is a natural, every multiplier is a power of 1024,
and `varStrForce(VARDBL ...)` prints an integral double without fraction
digits, i.e. as the decimal numeral. -/
def convertToByteCore (orig : String) (lower : List Char) : Except SizeErr (String × Nat) :=
  if sizeMatchL lower then
    match chrPosOf lower with
    | none =>
      match natParseQ lower with
      | some v => .ok (toString v, v)
      | none => .error (.convert (String.mk lower))
    | some pos =>
      match sizeQualifierToMultiplier (lower.getD pos ' ') with
      | none => .error (.assertQualifier (lower.getD pos ' '))
      | some mult =>
        match natParseQ (lower.take pos) with
        | some v => .ok (toString (v * mult), v * mult)
        | none => .error (.convert (String.mk (lower.take pos)))
  else .error (.notValid orig)

/-- Translation of `convertToByte`: lowercase a copy of the value, then run
the conversion body. -/
def convertToByte (value : String) : Except SizeErr (String × Nat) :=
  convertToByteCore value (value.data.map lowerC)

/-- String-level wrapper of the regex test (used to state claim C5). -/
def sizeMatch (value : String) : Bool :=
  sizeMatchL (value.data.map lowerC)

/-- Spec-side definition for the amended claim C5, on the lowered character
list: digits followed by at most one qualifier token of
`kb|k|mb|m|gb|g|tb|t|pb|p|b`, or by the digraph `bb`.  Written from the
amended claim's words, to be compared with the source-translated
`convertToByte`. -/
def sizeAcceptsL (a : List Char) : Bool :=
  !(a.takeWhile isDigitC).isEmpty &&
    (match a.dropWhile isDigitC with
     | [] => true
     | [x] => isQualC x
     | [x, y] => isQualC x && y = 'b'
     | _ => false)

/-- Spec-side definition for the amended claim C5 (case-insensitive wrapper). -/
def sizeAccepts (value : String) : Bool :=
  sizeAcceptsL (value.data.map lowerC)

/-- Spec-side multiplier of an accepted qualifier suffix. -/
def suffixMult (q : List Char) : Nat :=
  match q with
  | [] => 1
  | [x] => (sizeQualifierToMultiplier x).getD 1
  | x :: _ => (sizeQualifierToMultiplier x).getD 1

/-! ### Generated option metadata (external collaborator)

The generated tables (`parse.auto.c`, `define.c`, `config.c`) are not part of
src/; per the spec they are "consumed read-only" contracts.  They are modelled
as a parameter structure whose fields are the accessor functions the parser
calls. -/

/-- One row of the generated `optionList` for `getopt_long`, after decoding the
packed 32-bit `val` field: option id (bits 0-7), raw index (bits 8-15), and
the negate/reset flags (bits 29/28). -/
structure OptEntry where
  optId : Nat
  optIdx : Nat
  negate : Bool := false
  reset : Bool := false
deriving DecidableEq

/-- The generated metadata and command table, as accessor functions. -/
structure Meta where
  optTotal : Nat
  indexMax : Nat
  cmdHelp : Nat
  cmdVersion : Nat
  cmdFromName : String → Option Nat
  roleFromName : String → Option Nat
  cmdName : Nat → String
  parameterAllowed : Nat → Bool
  optionName : Nat → String
  optionIdxName : Nat → Nat → String
  findName : String → Option OptEntry
  secure : Nat → Bool
  multi : Nat → Bool
  optType : Nat → OptType
  optSec : Nat → OptSec
  groupOf : Nat → Option Nat
  validFor : Nat → Nat → Bool
  defaultOf : Nat → Nat → Option String
  requiredFor : Nat → Nat → Bool
  allowList : Nat → Nat → Option (List String)
  allowRange : Nat → Nat → Option (Rat × Rat)
  dependOf : Nat → Nat → Option Nat
  dependValues : Nat → Nat → List String
  resolveOrder : List Nat
  optConfig : Nat
  optConfigPath : Nat
  optConfigIncludePath : Nat
  optStanza : Nat

/-! ### Phase 1: command-line argument scan -/

/-- One event of the `getopt_long` loop, i.e. one iteration of the P1 `while`:
a non-option word (`case 1`), an unknown option (`case '?'`), an option with a
missing required argument (`case ':'`), or a recognized option with its
decoded id/index/flags, `has_arg == required_argument` and (when present) its
argument. -/
inductive Arg
  | word (tok : String)
  | unknownOpt (tok : String)
  | missingArg (tok : String)
  | opt (optId optIdx : Nat) (negate reset hasArg : Bool) (argVal : String)
deriving DecidableEq

/-- State carried by phase 1 (the `cfgCommand*` globals plus the locals of
`configParse`). -/
structure P1State where
  command : Option Nat := none
  commandRole : Nat := 0
  help : Bool := false
  commandSet : Bool := false
  params : List String := []
  argFound : Bool := false
  table : PTable := tEmpty

/-- Handler of `case 1`: the first non-option token is the command (optionally
`cmd:role`), later tokens are command parameters. -/
def phase1Word (meta : Meta) (st : P1State) (tok : String) : Except ParseError P1State :=
  if !st.commandSet then
    let parsed : Except ParseError (Nat × Nat) :=
      match meta.cmdFromName tok with
      | some cid => .ok (cid, 0)
      | none =>
        match splitChar ':' tok with
        | [c, r] =>
          match meta.cmdFromName c with
          | some cid =>
            match meta.roleFromName r with
            | some rid => .ok (cid, rid)
            | none => .error (.commandInvalid ("invalid command role " ++ sq ++ r ++ sq))
          | none => .error (.commandInvalid ("invalid command " ++ sq ++ tok ++ sq))
        | _ => .error (.commandInvalid ("invalid command " ++ sq ++ tok ++ sq))
    match parsed with
    | .error e => .error e
    | .ok (cid, rid) =>
      let st := { st with command := some cid, commandRole := rid }
      if cid = meta.cmdHelp then .ok { st with help := true }
      else .ok { st with commandSet := true }
  else .ok { st with params := st.params ++ [tok] }

/-- Handler of the `default:` case for a recognized option token: the secure
check, first-occurrence recording, and the six conflict rules for a repeated
occurrence. -/
def phase1Opt (meta : Meta) (st : P1State) (optId optIdx : Nat)
    (negate reset hasArg : Bool) (argVal : String) : Except ParseError P1State :=
  if meta.secure optId then
    .error (.optionInvalid
      ("option " ++ sq ++ meta.optionIdxName optId optIdx ++ sq ++
        " is not allowed on the command-line\nHINT: this option could expose secrets in the process list.\nHINT: specify the option in a configuration file or an environment variable instead."))
  else
    let ov := tGet st.table optId optIdx
    if !ov.found then
      let v : ParseOptionValue :=
        { found := true, negate := negate, reset := reset, source := .sParam,
          valueList := if hasArg then [argVal] else [] }
      .ok { st with table := tSet st.table optId optIdx v }
    else
      if ov.negate && negate then
        .error (.optionInvalid
          ("option " ++ sq ++ meta.optionIdxName optId optIdx ++ sq ++ " is negated multiple times"))
      else if ov.reset && reset then
        .error (.optionInvalid
          ("option " ++ sq ++ meta.optionIdxName optId optIdx ++ sq ++ " is reset multiple times"))
      else if (ov.reset && negate) || (ov.negate && reset) then
        .error (.optionInvalid
          ("option " ++ sq ++ meta.optionIdxName optId optIdx ++ sq ++ " cannot be negated and reset"))
      else if ov.negate != negate then
        .error (.optionInvalid
          ("option " ++ sq ++ meta.optionIdxName optId optIdx ++ sq ++ " cannot be set and negated"))
      else if ov.reset != reset then
        .error (.optionInvalid
          ("option " ++ sq ++ meta.optionIdxName optId optIdx ++ sq ++ " cannot be set and reset"))
      else if hasArg && meta.multi optId then
        .ok { st with
          table := tSet st.table optId optIdx { ov with valueList := ov.valueList ++ [argVal] } }
      else
        .error (.optionInvalid
          ("option " ++ sq ++ meta.optionIdxName optId optIdx ++ sq ++ " cannot be set multiple times"))

/-- One iteration of the phase-1 loop; every iteration marks `argFound`. -/
def phase1Arg (meta : Meta) (st : P1State) (a : Arg) : Except ParseError P1State :=
  let r :=
    match a with
    | .word tok => phase1Word meta st tok
    | .unknownOpt tok => .error (.optionInvalid ("invalid option " ++ sq ++ tok ++ sq))
    | .missingArg tok => .error (.optionInvalid ("option " ++ sq ++ tok ++ sq ++ " requires argument"))
    | .opt optId optIdx negate reset hasArg argVal =>
      phase1Opt meta st optId optIdx negate reset hasArg argVal
  r.map fun s => { s with argFound := true }

/-- The phase-1 loop over the classified argument stream. -/
def phase1Loop (meta : Meta) : P1State → List Arg → Except ParseError P1State
  | st, [] => .ok st
  | st, a :: rest =>
    match phase1Arg meta st a with
    | .ok st' => phase1Loop meta st' rest
    | .error err => .error err

/-- The post-loop parameter check of phase 1. -/
def phase1Params (meta : Meta) (st : P1State) : Except ParseError P1State :=
  if !st.params.isEmpty then
    if !st.help && !(meta.parameterAllowed (st.command.getD 0)) then
      .error (.paramInvalid ("command does not allow parameters"))
    else .ok st
  else .ok st

/-- The post-loop handling of a missing command, then the parameter check. -/
def phase1Post (meta : Meta) (st : P1State) : Except ParseError P1State :=
  if !st.commandSet && !st.help then
    (if st.argFound then .error (.commandRequired ("no command found"))
     else phase1Params meta { st with help := true })
  else phase1Params meta st

/-- Phase 1: loop plus the post-loop handling of a missing command and of
command parameters. -/
def phase1 (meta : Meta) (args : List Arg) : Except ParseError P1State :=
  match phase1Loop meta {} args with
  | .error err => .error err
  | .ok st0 => phase1Post meta st0

/-- Does the parse continue past phase 1 (`cfgCommand() != cfgCmdNone &&
!= cfgCmdVersion && != cfgCmdHelp`)? -/
def realCommand (meta : Meta) (st : P1State) : Bool :=
  match st.command with
  | none => false
  | some c => c != meta.cmdVersion && c != meta.cmdHelp

/-! ### Phase 2: environment scan -/

/-- Split a character list at the first occurrence of `c` (C `strchr`). -/
def splitFirst (c : Char) : List Char → Option (List Char × List Char)
  | [] => none
  | x :: xs =>
    if x = c then some ([], xs)
    else
      match splitFirst c xs with
      | some (a, b) => some (x :: a, b)
      | none => none

/-- The `PGBACKREST_` environment variable marker. -/
def pgbEnvMarker : String := "PGBACKREST_"

/-- Key transform for environment names: lowercase, then `_` to `-`
(`strReplaceChr(strLower(...), '_', '-')`). -/
def envKeyTransform (k : List Char) : String :=
  String.mk ((k.map lowerC).map (fun c => if c = '_' then '-' else c))

/-- Recording of one resolved environment variable (the body of the phase-2
loop after the key/value extraction): resolve the transformed key against the
option table and record the value unless the entry was already found. -/
def phase2KeyVal (meta : Meta) (cmd : Nat) (tbl : PTable) (key value : String) :
    Except ParseError PTable :=
  match meta.findName key with
  | none => .ok tbl
  | some ent =>
    if ent.negate then .ok tbl
    else if ent.reset then .ok tbl
    else if !meta.validFor cmd ent.optId then .ok tbl
    else if value.length = 0 then
      .error (.optionInvalidValue
        ("environment variable " ++ sq ++ key ++ sq ++ " must have a value"))
    else if (tGet tbl ent.optId ent.optIdx).found then .ok tbl
    else if meta.optType ent.optId = .boolean then
      if value = "n" then
        .ok (tSet tbl ent.optId ent.optIdx
          { tGet tbl ent.optId ent.optIdx with found := true, source := .sConfig, negate := true })
      else if value = "y" then
        .ok (tSet tbl ent.optId ent.optIdx
          { tGet tbl ent.optId ent.optIdx with found := true, source := .sConfig })
      else
        .error (.optionInvalidValue
          ("environment boolean option " ++ sq ++ key ++ sq ++ " must be " ++ sq ++ "y" ++
            sq ++ " or " ++ sq ++ "n" ++ sq))
    else if meta.multi ent.optId then
      .ok (tSet tbl ent.optId ent.optIdx
        { tGet tbl ent.optId ent.optIdx with
          found := true, source := .sConfig, valueList := splitChar ':' value })
    else
      .ok (tSet tbl ent.optId ent.optIdx
        { tGet tbl ent.optId ent.optIdx with
          found := true, source := .sConfig, valueList := [value] })

/-- One iteration of the phase-2 loop over `environ`: on a `PGBACKREST_`
variable, split it at the first `=`, transform the key, and record it. -/
def phase2Entry (meta : Meta) (cmd : Nat) (tbl : PTable) (entry : String) :
    Except ParseError PTable :=
  if !strStarts entry pgbEnvMarker then .ok tbl
  else
    match splitFirst '=' entry.data with
    | none => .error (.assertError ("environment entry does not contain ="))
    | some (rawKey, rawVal) =>
      phase2KeyVal meta cmd tbl (envKeyTransform (rawKey.drop pgbEnvMarker.length))
        (String.mk rawVal)

/-- The phase-2 loop over the environment entries. -/
def phase2 (meta : Meta) (cmd : Nat) : PTable → List String → Except ParseError PTable
  | tbl, [] => .ok tbl
  | tbl, e :: rest =>
    match phase2Entry meta cmd tbl e with
    | .ok tbl' => phase2 meta cmd tbl' rest
    | .error err => .error err

/-! ### Phase 3: configuration file loading (`cfgFileLoad`) -/

/-- The storage collaborator: file contents by path (`none` = missing) and
directory listings (`none` = missing directory). -/
structure Storage where
  fileGet : String → Option String
  dirList : String → Option (List String)

/-- `storageGetP(storageNewReadP(..., .ignoreMissing = im))`, additionally
returning the read that was performed `(path, ignoreMissing)` so theorems can
speak about which files the loader touches.  A missing file is an error
exactly when `ignoreMissing` is false. -/
def storageGetLog (fs : Storage) (name : String) (ignoreMissing : Bool) :
    Except ParseError (Option String × List (String × Bool)) :=
  match fs.fileGet name with
  | some c => .ok (some c, [(name, ignoreMissing)])
  | none => if ignoreMissing then .ok (none, [(name, ignoreMissing)]) else .error (.fileMissing name)

/-- Was the option found at raw index 0 with a non-empty index list
(`indexList != NULL && indexList[0].found`)? -/
def optFound0 (tbl : PTable) (id : Nat) : Bool :=
  match (tbl id).indexList with
  | [] => false
  | v :: _ => v.found

/-- Was the option negated at raw index 0? -/
def optNegate0 (tbl : PTable) (id : Nat) : Bool :=
  match (tbl id).indexList with
  | [] => false
  | v :: _ => v.negate

/-- First value of the option at raw index 0 (`strLstGet(valueList, 0)`). -/
def optValue0 (tbl : PTable) (id : Nat) : String :=
  ((tGet tbl id 0).valueList).getD 0 ""

/-- `strBaseZ`: the path component after the last slash. -/
def strBase (s : String) : String :=
  (splitChar '/' s).getLastD s

/-- The original default config path `/etc/pgbackrest.conf`
(`PGBACKREST_CONFIG_ORIG_PATH_FILE`). -/
def origConfigPathFile : String := "/etc/pgbackrest.conf"

/-- Is `--config` present on the command line (`configRequired` before the
negate adjustment)? -/
def configRequired0 (meta : Meta) (tbl : PTable) : Bool :=
  optFound0 tbl meta.optConfig

/-- Is `--config-path` present on the command line? -/
def configPathRequired (meta : Meta) (tbl : PTable) : Bool :=
  optFound0 tbl meta.optConfigPath

/-- Is `--config-include-path` present on the command line? -/
def configIncludeRequired (meta : Meta) (tbl : PTable) : Bool :=
  optFound0 tbl meta.optConfigIncludePath

/-- Was `--no-config` passed? -/
def noConfig (meta : Meta) (tbl : PTable) : Bool :=
  optNegate0 tbl meta.optConfig

/-- `configRequired` after the `--no-config` adjustment. -/
def configRequiredF (meta : Meta) (tbl : PTable) : Bool :=
  configRequired0 meta tbl && !noConfig meta tbl

/-- The `--config` default after the `--config-path` rebase. -/
def rebasedConfigDefault (meta : Meta) (tbl : PTable) (optConfigDefault : String) : String :=
  if configPathRequired meta tbl then
    optValue0 tbl meta.optConfigPath ++ "/" ++ strBase optConfigDefault
  else optConfigDefault

/-- The `--config-include-path` default after the `--config-path` rebase
(`<config-path>/conf.d`). -/
def rebasedIncludeDefault (meta : Meta) (tbl : PTable) (optConfigIncludePathDefault : String) : String :=
  if configPathRequired meta tbl then
    optValue0 tbl meta.optConfigPath ++ "/" ++ "conf.d"
  else optConfigIncludePathDefault

/-- The path the main-file step reads. -/
def mainFileName (meta : Meta) (tbl : PTable) (optConfigDefault : String) : String :=
  if configRequiredF meta tbl then optValue0 tbl meta.optConfig
  else rebasedConfigDefault meta tbl optConfigDefault

/-- The main-file step of `cfgFileLoad` (the `if (loadConfig)` block): read
the chosen config file and, when it is absent and its name is still the
passed-in (pre-rebase) default, retry once at the old default location. -/
def mainFileLoad (fs : Storage) (meta : Meta) (tbl : PTable)
    (optConfigDefault origConfigDefault : String) :
    Except ParseError (Option String × List (String × Bool)) :=
  if !noConfig meta tbl then
    match storageGetLog fs (mainFileName meta tbl optConfigDefault)
      (!configRequiredF meta tbl) with
    | .error err => .error err
    | .ok (buffer, log1) =>
      match buffer with
      | some content => .ok (some content, log1)
      | none =>
        if mainFileName meta tbl optConfigDefault = optConfigDefault then
          match storageGetLog fs origConfigDefault (!configRequiredF meta tbl) with
          | .error err => .error err
          | .ok (buffer2, log2) => .ok (buffer2, log1 ++ log2)
        else .ok (none, log1)
  else .ok (none, [])

/-- Does a directory entry match the include expression `.+\.conf$`? -/
def confEntryMatch (name : String) : Bool :=
  strEnds name (".conf") && 5 < name.length

/-- `cfgFileLoadPart`: validate a part as INI and append it to the accumulated
config text.  Note the dangling `else` in the source: the LF is appended only
when a previous part exists, then the part itself is appended. -/
def cfgFileLoadPart (iniOk : String → Bool) (config : Option String) (part : Option String) :
    Except ParseError (Option String) :=
  match part with
  | none => .ok config
  | some partStr =>
    if 0 < partStr.length then
      if iniOk partStr then
        match config with
        | none => .ok (some partStr)
        | some c => .ok (some (c ++ "\n" ++ partStr))
      else .error (.iniInvalid partStr)
    else .ok config

/-- Loop of the include step: read each `*.conf` entry (ignore-missing) and
fold it in through `cfgFileLoadPart`. -/
def includeParts (fs : Storage) (iniOk : String → Bool) (configIncludePath : String) :
    Option String → List String → Except ParseError (Option String × List (String × Bool))
  | acc, [] => .ok (acc, [])
  | acc, entry :: rest =>
    match storageGetLog fs (configIncludePath ++ "/" ++ entry) true with
    | .error err => .error err
    | .ok (part, log1) =>
      match cfgFileLoadPart iniOk acc part with
      | .error err => .error err
      | .ok acc' =>
        match includeParts fs iniOk configIncludePath acc' rest with
        | .error err => .error err
        | .ok (res, log2) => .ok (res, log1 ++ log2)

/-- The directory part of the include step: list `*.conf` entries in the
include path and fold them in, sorted ascending. -/
def includeLoadDir (fs : Storage) (iniOk : String → Bool) (meta : Meta) (tbl : PTable)
    (optConfigIncludePathDefault : String) (result0 : Option String) :
    Except ParseError (Option String × List (String × Bool)) :=
  match fs.dirList
    (if configIncludeRequired meta tbl then optValue0 tbl meta.optConfigIncludePath
     else optConfigIncludePathDefault) with
  | none =>
    if configIncludeRequired meta tbl then
      .error (.fileMissing
        (if configIncludeRequired meta tbl then optValue0 tbl meta.optConfigIncludePath
         else optConfigIncludePathDefault))
    else .ok (result0, [])
  | some entries =>
    if 0 < (entries.filter confEntryMatch).length then
      includeParts fs iniOk
        (if configIncludeRequired meta tbl then optValue0 tbl meta.optConfigIncludePath
         else optConfigIncludePathDefault)
        result0 ((entries.filter confEntryMatch).mergeSort (fun a b => a ≤ b))
    else .ok (result0, [])

/-- The include step of `cfgFileLoad` (the `if (loadConfigInclude)` block):
eagerly validate the main file, then fold in the include directory. -/
def includeLoad (fs : Storage) (iniOk : String → Bool) (meta : Meta) (tbl : PTable)
    (optConfigIncludePathDefault : String) (result0 : Option String) :
    Except ParseError (Option String × List (String × Bool)) :=
  match result0 with
  | some content =>
    if iniOk content then
      includeLoadDir fs iniOk meta tbl optConfigIncludePathDefault result0
    else .error (.iniInvalid content)
  | none => includeLoadDir fs iniOk meta tbl optConfigIncludePathDefault result0

/-- `cfgFileLoad`: the main-file step followed, unless an explicit `--config`
suppressed them, by the include step. -/
def cfgFileLoad (fs : Storage) (iniOk : String → Bool) (meta : Meta) (tbl : PTable)
    (optConfigDefault optConfigIncludePathDefault origConfigDefault : String) :
    Except ParseError (Option String × List (String × Bool)) :=
  match mainFileLoad fs meta tbl optConfigDefault origConfigDefault with
  | .error err => .error err
  | .ok (res1, log1) =>
    if !(configRequiredF meta tbl &&
        !(configPathRequired meta tbl || configIncludeRequired meta tbl)) then
      match includeLoad fs iniOk meta tbl
        (rebasedIncludeDefault meta tbl optConfigIncludePathDefault) res1 with
      | .error err => .error err
      | .ok (res2, log2) => .ok (res2, log1 ++ log2)
    else .ok (res1, log1)

/-! ### Phase 3: option resolution from the loaded INI text -/

/-- The INI reader collaborator, already parsed: key enumeration per section,
list detection, and value access. -/
structure Ini where
  sectionKeys : String → List String
  isList : String → String → Bool
  get : String → String → String
  getList : String → String → List String

/-- Message of the duplicate-options error of phase 3. -/
def msgDuplicateOption (key prevName secName : String) : ParseError :=
  .optionInvalid
    ("configuration file contains duplicate options (" ++ sq ++ key ++ sq ++ ", " ++ sq ++
      prevName ++ sq ++ ") in section " ++ sq ++ "[" ++ secName ++ "]" ++ sq)

/-- Message of the cannot-be-set-multiple-times error. -/
def msgSetMultiple (name : String) : ParseError :=
  .optionInvalid ("option " ++ sq ++ name ++ sq ++ " cannot be set multiple times")

/-- Message of the empty-value error of phase 3. -/
def msgSectionValue (secName key : String) : ParseError :=
  .optionInvalidValue
    ("section " ++ sq ++ secName ++ sq ++ ", key " ++ sq ++ key ++ sq ++ " must have a value")

/-- Message of the boolean-value error of phase 3. -/
def msgBoolYN (key : String) : ParseError :=
  .optionInvalidValue
    ("boolean option " ++ sq ++ key ++ sq ++ " must be " ++ sq ++ "y" ++ sq ++ " or " ++ sq ++
      "n" ++ sq)

/-- One key of one section in the phase-3 scan.  `optionFound` is the
per-section map used for duplicate (alias vs canonical) detection; `secIdx` is
the section's position in the search order (even = command-specific section).
Warnings are log-only in the source and skip the key. -/
def phase3Key (meta : Meta) (cmd : Nat) (ini : Ini) (secName : String)
    (tbl : PTable) (optionFound : List (Nat × String)) (key : String) :
    Except ParseError (PTable × List (Nat × String)) :=
    match meta.findName key with
    | none => .ok (tbl, optionFound)
    | some ent =>
      if ent.negate then .ok (tbl, optionFound)
      else if ent.reset then .ok (tbl, optionFound)
      else if meta.optSec ent.optId = .commandLine then .ok (tbl, optionFound)
      else
        match optionFound.lookup ent.optId with
        | some prevName => .error (msgDuplicateOption key prevName secName)
        | none =>
          if !meta.validFor cmd ent.optId then .ok (tbl, (ent.optId, key) :: optionFound)
          else if meta.optSec ent.optId = .stanza && strStarts secName ("global") then
            .ok (tbl, (ent.optId, key) :: optionFound)
          else if (tGet tbl ent.optId ent.optIdx).found then
            .ok (tbl, (ent.optId, key) :: optionFound)
          else if ini.isList secName key then
            if !meta.multi ent.optId then
              .error (msgSetMultiple (meta.optionIdxName ent.optId ent.optIdx))
            else
              .ok (tSet tbl ent.optId ent.optIdx
                { tGet tbl ent.optId ent.optIdx with
                  found := true, source := .sConfig, valueList := ini.getList secName key },
                (ent.optId, key) :: optionFound)
          else if (ini.get secName key).length = 0 then
            .error (msgSectionValue secName key)
          else if meta.optType ent.optId = .boolean then
            if ini.get secName key = "n" then
              .ok (tSet tbl ent.optId ent.optIdx
                { tGet tbl ent.optId ent.optIdx with
                  found := true, source := .sConfig, negate := true },
                (ent.optId, key) :: optionFound)
            else if ini.get secName key = "y" then
              .ok (tSet tbl ent.optId ent.optIdx
                { tGet tbl ent.optId ent.optIdx with found := true, source := .sConfig },
                (ent.optId, key) :: optionFound)
            else .error (msgBoolYN key)
          else
            .ok (tSet tbl ent.optId ent.optIdx
              { tGet tbl ent.optId ent.optIdx with
                found := true, source := .sConfig, valueList := [ini.get secName key] },
              (ent.optId, key) :: optionFound)

/-- Fold `phase3Key` over the keys of one section. -/
def phase3Keys (meta : Meta) (cmd : Nat) (ini : Ini) (secName : String) :
    PTable → List (Nat × String) → List String →
      Except ParseError (PTable × List (Nat × String))
  | tbl, optionFound, [] => .ok (tbl, optionFound)
  | tbl, optionFound, k :: rest =>
    match phase3Key meta cmd ini secName tbl optionFound k with
    | .ok acc' => phase3Keys meta cmd ini secName acc'.1 acc'.2 rest
    | .error err => .error err

/-- One section of the phase-3 scan (`optionFound` starts empty per section). -/
def phase3Section (meta : Meta) (cmd : Nat) (ini : Ini) (tbl : PTable) (secName : String) :
    Except ParseError PTable :=
  match phase3Keys meta cmd ini secName tbl [] (ini.sectionKeys secName) with
  | .ok acc => .ok acc.1
  | .error err => .error err

/-- Fold `phase3Section` over the section search order. -/
def phase3Sections (meta : Meta) (cmd : Nat) (ini : Ini) :
    PTable → List String → Except ParseError PTable
  | tbl, [] => .ok tbl
  | tbl, s :: rest =>
    match phase3Section meta cmd ini tbl s with
    | .ok tbl' => phase3Sections meta cmd ini tbl' rest
    | .error err => .error err

/-- The section search order: `<stanza>:<command>`, `<stanza>`,
`global:<command>`, `global`. -/
def sectionSearchList (meta : Meta) (cmd : Nat) (tbl : PTable) : List String :=
  (if optFound0 tbl meta.optStanza then
    [optValue0 tbl meta.optStanza ++ ":" ++ meta.cmdName cmd, optValue0 tbl meta.optStanza]
  else []) ++ ["global:" ++ meta.cmdName cmd, "global"]

/-- Phase 3: load the file text, parse it as INI, and scan the sections in
search order. -/
def phase3 (meta : Meta) (cmd : Nat) (iniOf : String → Option Ini) (fs : Storage)
    (tbl : PTable) : Except ParseError PTable :=
  match cfgFileLoad fs (fun s => (iniOf s).isSome) meta tbl
    ((meta.defaultOf cmd meta.optConfig).getD "")
    ((meta.defaultOf cmd meta.optConfigIncludePath).getD "")
    origConfigPathFile with
  | .error err => .error err
  | .ok (configString, _log) =>
    match configString with
    | none => .ok tbl
    | some cs =>
      match iniOf cs with
      | none => .error (.iniInvalid cs)
      | some ini => phase3Sections meta cmd ini tbl (sectionSearchList meta cmd tbl)

/-! ### Phase 4: group compaction -/

/-- Is raw index `rawIdx` marked for group `g`: some option of the group,
valid for the command, has a found staging record at that raw index
(`groupIdxMap[groupId][optionIdx]` after the first phase-4 loop). -/
def groupMarked (meta : Meta) (cmd : Nat) (tbl : PTable) (g rawIdx : Nat) : Bool :=
  (List.range meta.optTotal).any fun id =>
    meta.validFor cmd id && meta.groupOf id = some g &&
      decide (rawIdx < (tbl id).indexList.length) && ((tbl id).valueAt rawIdx).found

/-- The first option id that is invalid for the command but has staging
entries — the id the phase-4 loop throws on. -/
def phase4InvalidFind (meta : Meta) (cmd : Nat) (tbl : PTable) : Option Nat :=
  (List.range meta.optTotal).find? fun id =>
    !meta.validFor cmd id && decide (0 < (tbl id).indexList.length)

/-- The dense external-to-raw index mapping of a group, written in ascending
raw-index order by the second phase-4 loop. -/
def groupIndexList (meta : Meta) (cmd : Nat) (tbl : PTable) (g : Nat) : List Nat :=
  (List.range meta.indexMax).filter (groupMarked meta cmd tbl g)

/-- Per-group output of phase 4. -/
structure GroupInfo where
  indexTotal : Nat → Nat
  indexes : Nat → List Nat

/-- Phase 4: error on an invalid option that has staging entries, else build
the validity map and the dense group index mapping. -/
def phase4 (meta : Meta) (cmd : Nat) (tbl : PTable) :
    Except ParseError ((Nat → Bool) × GroupInfo) :=
  match phase4InvalidFind meta cmd tbl with
  | some id =>
    .error (.optionInvalid
      ("option " ++ sq ++ meta.optionName id ++ sq ++ " not valid for command " ++ sq ++
        meta.cmdName cmd ++ sq))
  | none =>
    .ok (fun id => decide (id < meta.optTotal) && meta.validFor cmd id,
      ⟨fun g => (groupIndexList meta cmd tbl g).length, groupIndexList meta cmd tbl⟩)

/-! ### Phase 5: resolve, validate and commit -/

/-- A committed option value (the variant stored by `cfgOptionSet`). -/
inductive Variant
  | vBool (b : Bool)
  | vStr (s : String)
  | vKv (pairs : List (String × String))
  | vList (items : List String)
deriving DecidableEq

/-- `varBool` on a committed value. -/
def Variant.asBool : Variant → Bool
  | .vBool b => b
  | _ => false

/-- `varStr` on a committed value. -/
def Variant.asStr : Variant → String
  | .vStr s => s
  | _ => ""

/-- The output record for one (option, external index): negate/reset flags,
source and committed value (`none` until `cfgOptionSet` stores one). -/
structure ConfigOptionValue where
  negate : Bool := false
  reset : Bool := false
  source : CfgSource := .sDefault
  value : Option Variant := none
deriving DecidableEq

instance : Inhabited ConfigOptionValue := ⟨{}⟩

/-- Is the option set (`found` and neither negated — booleans excepted — nor
reset)? -/
def optionSetOf (meta : Meta) (id : Nat) (pov : ParseOptionValue) : Bool :=
  pov.found && (meta.optType id = .boolean || !pov.negate) && !pov.reset

/-- The loop of the depend-list error construction: collect the quoted
depend values (string/path depends) and switch the depend option name to
`no-<name>` (boolean depend listing "0").  Any other depend type hits the C
`ASSERT`. -/
def dependErrInfo (meta : Meta) (depId : Nat) (depTy : OptType) :
    List String → String × List String → Except ParseError (String × List String)
  | [], acc => .ok acc
  | v :: rest, acc =>
    if depTy = .boolean then
      dependErrInfo meta depId depTy rest
        (if v = "0" then ("no-" ++ meta.optionName depId, acc.2) else acc)
    else if depTy = .path || depTy = .str then
      dependErrInfo meta depId depTy rest (acc.1, acc.2 ++ [sq ++ v ++ sq])
    else .error (.assertError ("depend option type"))

/-- The string the committed depend value is compared against: booleans map
to "1"/"0" (`varBool` then re-render), anything else uses the string form. -/
def dependValStr (meta : Meta) (depId : Nat) (v : Variant) : String :=
  if meta.optType depId = .boolean then (if v.asBool then "1" else "0") else v.asStr

/-- The dependency check of phase 5 for one option: returns `dependResolved`,
or throws when an unresolved dependency was set on the command line. -/
def dependResolve (meta : Meta) (cmd : Nat) (committed : Nat → Option Variant) (id : Nat)
    (optionSet : Bool) (src : CfgSource) : Except ParseError Bool :=
  match meta.dependOf cmd id with
  | none => .ok true
  | some depId =>
    match committed depId with
    | none =>
      if optionSet && src = .sParam then
        .error (.optionInvalid
          ("option " ++ sq ++ meta.optionName id ++ sq ++ " not valid without option " ++ sq ++
            meta.optionName depId ++ sq))
      else .ok false
    | some v =>
      if 0 < (meta.dependValues cmd id).length then
        if !(meta.dependValues cmd id).contains (dependValStr meta depId v) && optionSet &&
            src = .sParam then
          match dependErrInfo meta depId (meta.optType depId) (meta.dependValues cmd id)
            (meta.optionName depId, []) with
          | .error err => .error err
          | .ok (depName, valStrs) =>
            .error (.optionInvalid
              ("option " ++ sq ++ meta.optionName id ++ sq ++ " not valid without option " ++
                sq ++ depName ++ sq ++
                (if valStrs.length = 1 then " = " ++ valStrs.getD 0 ""
                 else if 1 < valStrs.length then
                   " in (" ++ String.intercalate (", ") valStrs ++ ")"
                 else "")))
        else .ok ((meta.dependValues cmd id).contains (dependValStr meta depId v))
      else .ok true

/-- Model of `varInt64Force(VARSTR ...)` (`cvtZToInt64`): strict decimal
integer with optional leading minus, within the signed 64-bit range. -/
def strToInt64 (s : String) : Option Int :=
  match s.data with
  | [] => none
  | c :: cs =>
    if c = '-' then
      (if !cs.isEmpty && cs.all isDigitC && digitsToNat cs ≤ 2 ^ 63 then
        some (-(digitsToNat cs : Int))
      else none)
    else
      (if (c :: cs).all isDigitC && digitsToNat (c :: cs) < 2 ^ 63 then
        some ((digitsToNat (c :: cs) : Int))
      else none)

/-- Unsigned decimal literal with optional fraction part, as an exact
rational. -/
def decParse (a : List Char) : Option Rat :=
  match splitFirst '.' a with
  | none => if !a.isEmpty && a.all isDigitC then some ((digitsToNat a : Rat)) else none
  | some (ip, fp) =>
    if !ip.isEmpty && !fp.isEmpty && ip.all isDigitC && fp.all isDigitC then
      some ((digitsToNat ip : Rat) + (digitsToNat fp : Rat) / ((10 : Rat) ^ fp.length))
    else none

/-- Model of `varDblForce(VARSTR ...)` (`cvtZToDouble`) on plain decimal
literals, as an exact rational. -/
def strToDbl (s : String) : Option Rat :=
  match s.data with
  | '-' :: rest => (decParse rest).map Neg.neg
  | chars => decParse chars

/-- Does the path text contain `//`? (`strstr(value, "//")`). -/
def hasDoubleSlash : List Char → Bool
  | '/' :: '/' :: _ => true
  | _ :: rest => hasDoubleSlash rest
  | [] => false

/-- Numeric validation for Integer/Float/Size options: parse (`CATCH_ANY`
maps any conversion failure to `OptionInvalidValueError`), then range-check.
Returns the (for Size: rewritten) value string and its numeric value. -/
def numericCheck (meta : Meta) (cmd : Nat) (id : Nat) (value : String) :
    Except ParseError (String × Rat) := do
  let ty := meta.optType id
  let parsed : Option (String × Rat) :=
    if ty = .integer then (strToInt64 value).map fun n => (value, (n : Rat))
    else if ty = .size then
      match convertToByte value with
      | .ok (v, n) => some (v, ((n : Nat) : Rat))
      | .error _ => none
    else (strToDbl value).map fun q => (value, q)
  match parsed with
  | none =>
    .error (.optionInvalidValue
      (sq ++ value ++ sq ++ " is not valid for " ++ sq ++ meta.optionName id ++ sq ++ " option"))
  | some (value', valueDbl) =>
    match meta.allowRange cmd id with
    | some (lo, hi) =>
      if valueDbl < lo || hi < valueDbl then
        .error (.optionInvalidValue
          (sq ++ value' ++ sq ++ " is out of range for " ++ sq ++ meta.optionName id ++ sq ++
            " option"))
      else .ok (value', valueDbl)
    | none => .ok (value', valueDbl)

/-- Path validation: non-empty, begins with `/`, no `//`, trailing `/`
stripped unless the value is exactly `/`. -/
def pathCheck (meta : Meta) (id : Nat) (value : String) : Except ParseError String :=
  if value.length = 0 then
    .error (.optionInvalidValue
      (sq ++ value ++ sq ++ " must be >= 1 character for " ++ sq ++ meta.optionName id ++ sq ++
        " option"))
  else if !strStarts value ("/") then
    .error (.optionInvalidValue
      (sq ++ value ++ sq ++ " must begin with / for " ++ sq ++ meta.optionName id ++ sq ++
        " option"))
  else if hasDoubleSlash value.data then
    .error (.optionInvalidValue
      (sq ++ value ++ sq ++ " cannot contain // for " ++ sq ++ meta.optionName id ++ sq ++
        " option"))
  else if strEnds value ("/") && value.length ≠ 1 then .ok (String.mk value.data.dropLast)
  else .ok value

/-- Split one `key=value` pair of a Hash option at the first `=`. -/
def hashPairs (meta : Meta) (id : Nat) :
    List String → List (String × String) → Except ParseError (List (String × String))
  | [], acc => .ok acc
  | raw :: rest, acc =>
    match splitFirst '=' raw.data with
    | none =>
      .error (.optionInvalid
        ("key/value " ++ sq ++ raw ++ sq ++ " not valid for " ++ sq ++ meta.optionName id ++ sq ++
          " option"))
    | some (k, v) => hashPairs meta id rest (acc ++ [(String.mk k, String.mk v)])

/-- Type-directed coercion and validation of a set option
(the `if (optionSet)` branch of phase 5), committing with the staging
record's source. -/
def coerceValue (meta : Meta) (cmd : Nat) (id : Nat) (pov : ParseOptionValue) :
    Except ParseError ConfigOptionValue :=
  let ty := meta.optType id
  let base : ConfigOptionValue := { negate := pov.negate, reset := pov.reset, source := pov.source }
  if ty = .boolean then .ok { base with value := some (.vBool (!pov.negate)) }
  else if ty = .hash then do
    let pairs ← hashPairs meta id pov.valueList []
    .ok { base with value := some (.vKv pairs) }
  else if ty = .lst then .ok { base with value := some (.vList pov.valueList) }
  else do
    let value := pov.valueList.getD 0 ""
    let value' ←
      if ty = .integer || ty = .float || ty = .size then do
        let (v, _d) ← numericCheck meta cmd id value
        pure v
      else if ty = .path then pathCheck meta id value
      else pure value
    match meta.allowList cmd id with
    | some l =>
      if !l.contains value' then
        .error (.optionInvalidValue
          (sq ++ value' ++ sq ++ " is not allowed for " ++ sq ++ meta.optionName id ++ sq ++
            " option"))
      else .ok { base with value := some (.vStr value') }
    | none => .ok { base with value := some (.vStr value') }

/-- The unset branch of phase 5: negation commits null with the record's
source, else the command default is committed, else a required option raises
`OptionRequiredError` (with the stanza hint when the option lives in the
stanza section). -/
def commitUnset (meta : Meta) (cmd : Nat) (id : Nat) (help : Bool) (pov : ParseOptionValue) :
    Except ParseError ConfigOptionValue :=
  let base : ConfigOptionValue := { negate := pov.negate, reset := pov.reset }
  if pov.negate then .ok { base with source := pov.source }
  else
    match meta.defaultOf cmd id with
    | some d => .ok { base with source := .sDefault, value := some (.vStr d) }
    | none =>
      if meta.requiredFor cmd id && !help then
        .error (.optionRequired
          (meta.cmdName cmd ++ " command requires option: " ++ meta.optionName id ++
            (if meta.optSec id = .stanza then "\nHINT: does this stanza exist?" else "")))
      else .ok base

/-- Resolution of one (option id, staging record): flags are copied, the
dependency is checked, and the value is coerced/defaulted/committed. -/
def resolveOne (meta : Meta) (cmd : Nat) (help : Bool) (committed : Nat → Option Variant)
    (id : Nat) (pov : ParseOptionValue) : Except ParseError ConfigOptionValue := do
  let oset := optionSetOf meta id pov
  let dependResolved ← dependResolve meta cmd committed id oset pov.source
  if dependResolved then
    if oset then coerceValue meta cmd id pov
    else commitUnset meta cmd id help pov
  else .ok { negate := pov.negate, reset := pov.reset }

/-- The output configuration object. -/
structure ConfigOut where
  help : Bool := false
  command : Option Nat := none
  commandRole : Nat := 0
  params : List String := []
  optionValidOut : Nat → Bool := fun _ => false
  optionValue : Nat → Nat → ConfigOptionValue := fun _ _ => {}
  groupIndexTotal : Nat → Nat := fun _ => 0
  groupIndexes : Nat → List Nat := fun _ => []

/-- The inner phase-5 loop over the external indexes of one option.
`cfgOption` on the depend target is modelled from the spec ("Let `depVal` =
resolved value of depend target"; the accessor itself lives in the external
config module): it reads the value committed so far at external index 0. -/
def phase5Idx (meta : Meta) (cmd : Nat) (help : Bool) (tbl : PTable) (gi : GroupInfo)
    (id : Nat) : ConfigOut → List Nat → Except ParseError ConfigOut
  | cfg, [] => .ok cfg
  | cfg, idx :: rest =>
    match resolveOne meta cmd help (fun did => (cfg.optionValue did 0).value) id
      (tGet tbl id
        (match meta.groupOf id with
         | some g => (gi.indexes g).getD idx 0
         | none => 0)) with
    | .error err => .error err
    | .ok r =>
      phase5Idx meta cmd help tbl gi id
        { cfg with
          optionValue := fun i j => if i = id && j = idx then r else cfg.optionValue i j }
        rest

/-- The outer phase-5 loop over the resolve order. -/
def phase5 (meta : Meta) (cmd : Nat) (help : Bool) (tbl : PTable) (gi : GroupInfo) :
    ConfigOut → List Nat → Except ParseError ConfigOut
  | cfg, [] => .ok cfg
  | cfg, id :: rest =>
    if cfg.optionValidOut id then
      match phase5Idx meta cmd help tbl gi id cfg
        (List.range
          (match meta.groupOf id with
           | some g => gi.indexTotal g
           | none => 1)) with
      | .error err => .error err
      | .ok cfg' => phase5 meta cmd help tbl gi cfg' rest
    else phase5 meta cmd help tbl gi cfg rest

/-- The configuration as it stands right after phase 1 (command, role, help
flag and parameters set; no option validated or committed). -/
def phase1Config (st : P1State) : ConfigOut :=
  { help := st.help, command := st.command, commandRole := st.commandRole, params := st.params }

/-- Inputs of one `configParse` invocation: the classified argument stream,
the environment, and the filesystem. -/
structure ParseIn where
  args : List Arg
  env : List String
  fs : Storage

/-- Phases 2-5 of `configParse`, run only for a real command. -/
def configParseTail (meta : Meta) (iniOf : String → Option Ini) (inp : ParseIn)
    (st : P1State) : Except ParseError ConfigOut :=
  match phase2 meta (st.command.getD 0) st.table inp.env with
  | .error err => .error err
  | .ok tbl2 =>
    match phase3 meta (st.command.getD 0) iniOf inp.fs tbl2 with
    | .error err => .error err
    | .ok tbl3 =>
      match phase4 meta (st.command.getD 0) tbl3 with
      | .error err => .error err
      | .ok (validMap, gi) =>
        phase5 meta (st.command.getD 0) st.help tbl3 gi
          { phase1Config st with
            optionValidOut := validMap, groupIndexTotal := gi.indexTotal,
            groupIndexes := gi.indexes }
          meta.resolveOrder

/-- `configParse`: phase 1, then — only for a real command — phases 2-5. -/
def configParse (meta : Meta) (iniOf : String → Option Ini) (inp : ParseIn) :
    Except ParseError ConfigOut :=
  match phase1 meta inp.args with
  | .error err => .error err
  | .ok st =>
    if realCommand meta st then configParseTail meta iniOf inp st
    else .ok (phase1Config st)

/-! ### A small concrete option table (used by the witnesses)

A miniature instance of the generated metadata: commands `backup` (1),
`version` (2), `help` (3) and `archive-push` (4); options 0-12 covering every
type, a group (`pg<N>-path`), a secure option, a multi option, depends,
defaults, allow-lists and an allow-range. -/

/-- Names of the concrete options. -/
def tOptionName (id : Nat) : String :=
  if id = 0 then "config"
  else if id = 1 then "config-path"
  else if id = 2 then "config-include-path"
  else if id = 3 then "stanza"
  else if id = 4 then "compress"
  else if id = 5 then "process-max"
  else if id = 6 then "buffer-size"
  else if id = 7 then "spool-path"
  else if id = 8 then "archive-async"
  else if id = 9 then "pg-path"
  else if id = 10 then "recovery-option"
  else if id = 11 then "s3-key"
  else if id = 12 then "sample-rate"
  else ""

/-- The concrete metadata instance. -/
def tMeta : Meta where
  optTotal := 13
  indexMax := 4
  cmdHelp := 3
  cmdVersion := 2
  cmdFromName := fun s =>
    if s = "backup" then some 1
    else if s = "version" then some 2
    else if s = "help" then some 3
    else if s = "archive-push" then some 4
    else none
  roleFromName := fun s =>
    if s = "local" then some 1 else if s = "remote" then some 2 else none
  cmdName := fun c =>
    if c = 1 then "backup"
    else if c = 2 then "version"
    else if c = 3 then "help"
    else if c = 4 then "archive-push"
    else ""
  parameterAllowed := fun _ => false
  optionName := tOptionName
  optionIdxName := fun id idx =>
    if id = 9 then "pg" ++ toString (idx + 1) ++ "-path" else tOptionName id
  findName := fun s =>
    if s = "config" then some ⟨0, 0, false, false⟩
    else if s = "config-path" then some ⟨1, 0, false, false⟩
    else if s = "config-include-path" then some ⟨2, 0, false, false⟩
    else if s = "stanza" then some ⟨3, 0, false, false⟩
    else if s = "compress" then some ⟨4, 0, false, false⟩
    else if s = "no-compress" then some ⟨4, 0, true, false⟩
    else if s = "reset-compress" then some ⟨4, 0, false, true⟩
    else if s = "process-max" then some ⟨5, 0, false, false⟩
    else if s = "buffer-size" then some ⟨6, 0, false, false⟩
    else if s = "spool-path" then some ⟨7, 0, false, false⟩
    else if s = "archive-async" then some ⟨8, 0, false, false⟩
    else if s = "pg1-path" then some ⟨9, 0, false, false⟩
    else if s = "pg2-path" then some ⟨9, 1, false, false⟩
    else if s = "pg3-path" then some ⟨9, 2, false, false⟩
    else if s = "pg4-path" then some ⟨9, 3, false, false⟩
    else if s = "recovery-option" then some ⟨10, 0, false, false⟩
    else if s = "s3-key" then some ⟨11, 0, false, false⟩
    else if s = "sample-rate" then some ⟨12, 0, false, false⟩
    else none
  secure := fun id => id = 11
  multi := fun id => id = 10
  optType := fun id =>
    if id = 0 then .str
    else if id = 1 then .path
    else if id = 2 then .path
    else if id = 3 then .str
    else if id = 4 then .boolean
    else if id = 5 then .integer
    else if id = 6 then .size
    else if id = 7 then .path
    else if id = 8 then .boolean
    else if id = 9 then .path
    else if id = 10 then .hash
    else if id = 11 then .str
    else if id = 12 then .float
    else .str
  optSec := fun id =>
    if id ≤ 3 then .commandLine else if id = 9 then .stanza else .global
  groupOf := fun id => if id = 9 then some 0 else none
  validFor := fun c id =>
    if c = 1 then [0, 1, 2, 3, 4, 5, 6, 9, 10, 11, 12].contains id
    else if c = 4 then [0, 1, 2, 3, 7, 8].contains id
    else false
  defaultOf := fun c id =>
    if id = 4 ∧ c = 1 then some "y"
    else if id = 8 then some "n"
    else if id = 0 then some "/etc/pgbackrest/pgbackrest.conf"
    else if id = 2 then some "/etc/pgbackrest/conf.d"
    else none
  requiredFor := fun c id => c = 1 ∧ (id = 3 ∨ id = 9)
  allowList := fun c id =>
    if c = 1 ∧ id = 5 then some ["1", "2", "4"]
    else if c = 1 ∧ id = 6 then some ["16384", "32768"]
    else if c = 1 ∧ id = 12 then some ["1", "0.5"]
    else none
  allowRange := fun c id => if c = 1 ∧ id = 5 then some ((1 : Rat), (999 : Rat)) else none
  dependOf := fun c id =>
    if c = 4 ∧ id = 7 then some 8
    else if c = 1 ∧ id = 10 then some 3
    else if c = 1 ∧ id = 12 then some 3
    else none
  dependValues := fun c id =>
    if c = 4 ∧ id = 7 then ["1"]
    else if c = 1 ∧ id = 10 then ["aaa", "bbb"]
    else if c = 1 ∧ id = 12 then ["fast"]
    else []
  resolveOrder := [0, 1, 2, 3, 4, 5, 6, 8, 7, 9, 10, 11, 12]
  optConfig := 0
  optConfigPath := 1
  optConfigIncludePath := 2
  optStanza := 3

/-- The staging-record invariant behind the phase-5 unset commit: a negated
record is boolean or came from the command line; an unfound record carries no
flags; the negate and reset flags never appear together. -/
def PovInv (meta : Meta) (id : Nat) (p : ParseOptionValue) : Prop :=
  (p.negate = true → meta.optType id = .boolean ∨ p.source = .sParam) ∧
  (p.found = false → p.negate = false ∧ p.reset = false) ∧
  ¬(p.negate = true ∧ p.reset = true)

/-- The invariant over the whole staging table. -/
def TableInv (meta : Meta) (tbl : PTable) : Prop :=
  ∀ id idx, PovInv meta id (tGet tbl id idx)

/-- Well-formedness of a classified argument: the generated option list never
carries the negate and the reset marker on the same entry, so `getopt` never
reports both at once. -/
def ArgOk : Arg → Prop
  | .opt _ _ negate reset _ _ => ¬(negate = true ∧ reset = true)
  | _ => True

/-- The multiplier of a qualifier letter as a total function. -/
def multC (c : Char) : Nat :=
  (sizeQualifierToMultiplier c).getD 1

/-- Status of an `Except` result as a Bool. -/
def exceptOk : Except ε α → Bool
  | .ok _ => true
  | .error _ => false

/-- Does phase 1 end without a real command (so that `configParse` returns
right after it)? -/
def phase1Stops (meta : Meta) (args : List Arg) : Bool :=
  match phase1 meta args with
  | .ok st => !realCommand meta st
  | .error _ => false

/-! ### Staging-table lemmas -/

theorem getD_replicate_self (k i : Nat) (d : α) : (List.replicate k d).getD i d = d := by
  rcases Nat.lt_or_ge i k with h | h
  · rw [List.getD_eq_getElem _ _ (by simpa using h)]
    exact List.getElem_replicate _ _
  · exact List.getD_eq_default _ _ (by simpa using h)

theorem getD_append_replicate_default (l : List α) (k i : Nat) (d : α) :
    (l ++ List.replicate k d).getD i d = l.getD i d := by
  rcases Nat.lt_or_ge i l.length with h | h
  · exact List.getD_append _ _ _ _ h
  · rw [List.getD_append_right _ _ _ _ h, List.getD_eq_default _ _ h]
    exact getD_replicate_self _ _ _

theorem valueAt_grow (o : ParseOption) (idx idx' : Nat) :
    (o.grow idx).valueAt idx' = o.valueAt idx' := by
  unfold ParseOption.grow ParseOption.valueAt
  split
  · rfl
  · exact getD_append_replicate_default _ _ _ _

theorem length_grow (o : ParseOption) (idx : Nat) :
    (o.grow idx).indexList.length = max o.indexList.length (idx + 1) := by
  unfold ParseOption.grow
  split <;> simp <;> omega

theorem getD_set_lt (l : List α) (i : Nat) (v d : α) (h : i < l.length) :
    (l.set i v).getD i d = v := by
  rw [List.getD_eq_getElem _ _ (by simpa using h)]
  simp [List.getElem_set_self]

theorem getD_set_ne (l : List α) (i j : Nat) (v d : α) (h : j ≠ i) :
    (l.set i v).getD j d = l.getD j d := by
  induction l generalizing i j with
  | nil => simp
  | cons x xs ih =>
    cases i with
    | zero =>
      cases j with
      | zero => exact absurd rfl h
      | succ j' => simp
    | succ i' =>
      cases j with
      | zero => simp
      | succ j' =>
        simp only [List.set_cons_succ, List.getD_cons_succ]
        exact ih i' j' (by omega)

theorem valueAt_setAt_self (o : ParseOption) (idx : Nat) (v : ParseOptionValue) :
    (o.setAt idx v).valueAt idx = v := by
  unfold ParseOption.setAt ParseOption.valueAt
  exact getD_set_lt _ _ _ _ (by rw [length_grow]; omega)

theorem valueAt_setAt_ne (o : ParseOption) (idx idx' : Nat) (v : ParseOptionValue)
    (h : idx' ≠ idx) : (o.setAt idx v).valueAt idx' = o.valueAt idx' := by
  unfold ParseOption.setAt
  show (_ : List _).getD _ _ = _
  rw [getD_set_ne _ _ _ _ _ h]
  exact valueAt_grow o idx idx'

theorem tGet_tSet_self (t : PTable) (id idx : Nat) (v : ParseOptionValue) :
    tGet (tSet t id idx v) id idx = v := by
  simp [tGet, tSet, valueAt_setAt_self]

theorem tGet_tSet_ne (t : PTable) (id idx id' idx' : Nat) (v : ParseOptionValue)
    (h : id' ≠ id ∨ idx' ≠ idx) : tGet (tSet t id' idx' v) id idx = tGet t id idx := by
  unfold tGet tSet
  rcases h with h | h
  · rw [if_neg (by omega)]
  · by_cases hid : id = id'
    · subst hid
      rw [if_pos rfl]
      exact valueAt_setAt_ne _ _ _ _ (Ne.symm h)
    · rw [if_neg hid]

theorem tSet_other_id (t : PTable) (id idx id' : Nat) (v : ParseOptionValue)
    (h : id' ≠ id) : tSet t id idx v id' = t id' := by
  simp [tSet, h]

/-! ### Size-parser lemmas (claim C5) -/

theorem takeWhile_eq_self_of_all {p : α → Bool} {l : List α} (h : l.all p = true) :
    l.takeWhile p = l := by
  induction l with
  | nil => rfl
  | cons x xs ih =>
    simp only [List.all_cons, Bool.and_eq_true] at h
    simp [List.takeWhile_cons_of_pos h.1, ih h.2]

theorem dropWhile_eq_nil_of_all {p : α → Bool} {l : List α} (h : l.all p = true) :
    l.dropWhile p = [] := by
  induction l with
  | nil => rfl
  | cons x xs ih =>
    simp only [List.all_cons, Bool.and_eq_true] at h
    simp [List.dropWhile_cons_of_pos h.1, ih h.2]

theorem takeWhile_all_append {p : α → Bool} {d : List α} (q : List α) (h : d.all p = true) :
    (d ++ q).takeWhile p = d ++ q.takeWhile p := by
  induction d with
  | nil => rfl
  | cons x xs ih =>
    simp only [List.all_cons, Bool.and_eq_true] at h
    simp [List.takeWhile_cons_of_pos h.1, ih h.2]

theorem dropWhile_all_append {p : α → Bool} {d : List α} (q : List α) (h : d.all p = true) :
    (d ++ q).dropWhile p = q.dropWhile p := by
  induction d with
  | nil => rfl
  | cons x xs ih =>
    simp only [List.all_cons, Bool.and_eq_true] at h
    simp [List.dropWhile_cons_of_pos h.1, ih h.2]

theorem all_getD {p : α → Bool} {l : List α} (h : l.all p = true) {i : Nat} (hi : i < l.length)
    (d : α) : p (l.getD i d) = true := by
  rw [List.getD_eq_getElem _ _ hi]
  exact List.all_eq_true.mp h _ (l.getElem_mem hi)

theorem digit_le57 {c : Char} (h : isDigitC c = true) : c.toNat ≤ 57 := by
  simp only [isDigitC, Bool.and_eq_true, decide_eq_true_eq] at h
  exact h.2

theorem digit_ne_b {c : Char} (h : isDigitC c = true) : (c = 'b') = False := by
  simp only [eq_iff_iff, iff_false]
  intro he
  subst he
  simp [isDigitC] at h

theorem qual_gt57 {c : Char} (h : isQualC c = true) : 57 < c.toNat := by
  simp only [isQualC, Bool.or_eq_true, decide_eq_true_eq] at h
  rcases h with ((((h | h) | h) | h) | h) | h <;> subst h <;> decide

theorem qual_not_digit {c : Char} (h : isQualC c = true) : isDigitC c = false := by
  have := qual_gt57 h
  simp only [isDigitC, Bool.and_eq_false_iff]
  right
  simpa using by omega

theorem qual_mult_eq {c : Char} (h : isQualC c = true) :
    sizeQualifierToMultiplier c = some (multC c) := by
  simp only [isQualC, Bool.or_eq_true, decide_eq_true_eq] at h
  rcases h with ((((h | h) | h) | h) | h) | h <;> subst h <;> rfl

theorem natParseQ_digits {d : List Char} (hne : d ≠ []) (hall : d.all isDigitC = true) :
    natParseQ d = some (digitsToNat d) := by
  unfold natParseQ
  rw [if_pos]
  simp [hall, List.isEmpty_iff, hne]

theorem natParseQ_qual_head {d q : List Char} {x : Char} (hx : isQualC x = true) :
    natParseQ (d ++ x :: q) = none := by
  unfold natParseQ
  rw [if_neg]
  simp [qual_not_digit hx]

theorem sizeMatch_digits {d : List Char} (hne : d ≠ []) (hall : d.all isDigitC = true) :
    sizeMatchL d = true := by
  unfold sizeMatchL
  rw [takeWhile_eq_self_of_all hall, dropWhile_eq_nil_of_all hall]
  simp [List.isEmpty_iff, hne]

theorem chrPos_digits {d : List Char} (hne : d ≠ []) (hall : d.all isDigitC = true) :
    chrPosOf d = none := by
  have hlen : 0 < d.length := List.length_pos.mpr hne
  have hlast : isDigitC (d.getD (d.length - 1) ' ') = true := all_getD hall (by omega) _
  unfold chrPosOf
  simp only [digit_ne_b hlast, if_false]
  rw [if_neg (by have := digit_le57 hlast; omega)]

/-- All-digits input: no qualifier position is selected and the digits are
returned as bytes unchanged. -/
theorem core_digits (orig : String) (d : List Char) (hne : d ≠ [])
    (hall : d.all isDigitC = true) :
    convertToByteCore orig d = .ok (toString (digitsToNat d), digitsToNat d) := by
  unfold convertToByteCore
  rw [if_pos (sizeMatch_digits hne hall), chrPos_digits hne hall,
    natParseQ_digits hne hall]

theorem all_takeWhile (p : α → Bool) (l : List α) : (l.takeWhile p).all p = true := by
  induction l with
  | nil => rfl
  | cons x xs ih =>
    by_cases h : p x
    · simp [List.takeWhile_cons_of_pos h, h, ih]
    · simp [List.takeWhile_cons_of_neg h]

theorem getD_append_len (d q : List Char) (k : Nat) :
    (d ++ q).getD (d.length + k) ' ' = q.getD k ' ' := by
  rw [List.getD_append_right _ _ _ _ (Nat.le_add_right _ _)]
  simp

theorem sizeMatch_dq {d q : List Char} (hne : d ≠ []) (hall : d.all isDigitC = true)
    (hq : q.all isQualC = true) : sizeMatchL (d ++ q) = true := by
  have hqtw : q.takeWhile isDigitC = [] := by
    cases q with
    | nil => rfl
    | cons x xs =>
      simp only [List.all_cons, Bool.and_eq_true] at hq
      simp [List.takeWhile_cons_of_neg, qual_not_digit hq.1]
  have hqdw : q.dropWhile isDigitC = q := by
    cases q with
    | nil => rfl
    | cons x xs =>
      simp only [List.all_cons, Bool.and_eq_true] at hq
      simp [List.dropWhile_cons_of_neg, qual_not_digit hq.1]
  unfold sizeMatchL
  rw [takeWhile_all_append q hall, dropWhile_all_append q hall, hqtw, hqdw]
  simp [List.isEmpty_iff, hne, hq]

theorem chrPos_dq {d q : List Char} (hne : d ≠ []) (hall : d.all isDigitC = true)
    (hq : q.all isQualC = true) (hqne : q ≠ []) :
    chrPosOf (d ++ q) =
      some (d.length +
        (if q.getD (q.length - 1) ' ' = 'b' ∧ 2 ≤ q.length then q.length - 2 else q.length - 1)) := by
  have hqlen : 0 < q.length := List.length_pos.mpr hqne
  have hlen : (d ++ q).length = d.length + q.length := by simp
  have hlast : (d ++ q).getD ((d ++ q).length - 1) ' ' = q.getD (q.length - 1) ' ' := by
    rw [hlen]
    have : d.length + q.length - 1 = d.length + (q.length - 1) := by omega
    rw [this, getD_append_len]
  have hlastq : isQualC (q.getD (q.length - 1) ' ') = true := all_getD hq (by omega) _
  unfold chrPosOf
  rw [hlast]
  by_cases hb : q.getD (q.length - 1) ' ' = 'b'
  · rw [if_pos hb]
    by_cases h2 : 2 ≤ q.length
    · have hprev : (d ++ q).getD ((d ++ q).length - 2) ' ' = q.getD (q.length - 2) ' ' := by
        rw [hlen]
        have : d.length + q.length - 2 = d.length + (q.length - 2) := by omega
        rw [this, getD_append_len]
      have hprevq : isQualC (q.getD (q.length - 2) ' ') = true := all_getD hq (by omega) _
      rw [hprev, if_neg (by have := qual_gt57 hprevq; omega)]
      rw [if_pos ⟨hb, h2⟩, hlen]
      congr 1
      omega
    · have h1 : q.length = 1 := by omega
      have hprev : (d ++ q).getD ((d ++ q).length - 2) ' ' = d.getD (d.length - 1) ' ' := by
        rw [hlen, h1]
        have : d.length + 1 - 2 = d.length - 1 := by omega
        rw [this]
        exact List.getD_append _ _ _ _ (by have := List.length_pos.mpr hne; omega)
      have hprevd : isDigitC (d.getD (d.length - 1) ' ') = true :=
        all_getD hall (by have := List.length_pos.mpr hne; omega) _
      rw [hprev, if_pos (by exact digit_le57 hprevd)]
      rw [if_neg (by omega), hlen]
      congr 1
      omega
  · rw [if_neg hb, if_pos (by have := qual_gt57 hlastq; omega)]
    rw [if_neg (by intro hcon; exact hb hcon.1), hlen]
    congr 1
    omega

/-- One trailing qualifier letter: the letter is removed and the digits are
multiplied by its multiplier. -/
theorem core_one_qual (orig : String) (d : List Char) (x : Char) (hne : d ≠ [])
    (hall : d.all isDigitC = true) (hx : isQualC x = true) :
    convertToByteCore orig (d ++ [x]) =
      .ok (toString (digitsToNat d * multC x), digitsToNat d * multC x) := by
  have hq : ([x] : List Char).all isQualC = true := by simp [hx]
  have hpos : chrPosOf (d ++ [x]) = some d.length := by
    rw [chrPos_dq hne hall hq (by simp)]
    simp
  have hget : (d ++ [x]).getD d.length ' ' = x := by
    have h0 := getD_append_len d [x] 0
    rwa [Nat.add_zero] at h0
  have htake : (d ++ [x]).take d.length = d := List.take_left d [x]
  simp only [convertToByteCore, sizeMatch_dq hne hall hq, if_true, hpos, hget,
    qual_mult_eq hx, htake, natParseQ_digits hne hall]

/-- A two-letter qualifier `<letter>b`: both letters are removed and the
digits are multiplied by the first letter's multiplier. -/
theorem core_two_qual (orig : String) (d : List Char) (x : Char) (hne : d ≠ [])
    (hall : d.all isDigitC = true) (hx : isQualC x = true) :
    convertToByteCore orig (d ++ [x, 'b']) =
      .ok (toString (digitsToNat d * multC x), digitsToNat d * multC x) := by
  have hbq : isQualC 'b' = true := rfl
  have hq : ([x, 'b'] : List Char).all isQualC = true := by simp [hx, hbq]
  have hpos : chrPosOf (d ++ [x, 'b']) = some d.length := by
    rw [chrPos_dq hne hall hq (by simp)]
    simp
  have hget : (d ++ [x, 'b']).getD d.length ' ' = x := by
    have h0 := getD_append_len d [x, 'b'] 0
    simpa using h0
  have htake : (d ++ [x, 'b']).take d.length = d := List.take_left d [x, 'b']
  simp only [convertToByteCore, sizeMatch_dq hne hall hq, if_true, hpos, hget,
    qual_mult_eq hx, htake, natParseQ_digits hne hall]

/-- Any longer qualifier run leaves letters in the truncated string, so the
numeric conversion fails. -/
theorem core_qual_fail (orig : String) (d q : List Char) (hne : d ≠ [])
    (hall : d.all isDigitC = true) (hq : q.all isQualC = true)
    (hshape : 2 ≤ q.length ∧ ¬ (q.length = 2 ∧ q.getD 1 ' ' = 'b')) :
    exceptOk (convertToByteCore orig (d ++ q)) = false := by
  obtain ⟨h2, hnot⟩ := hshape
  have hqne : q ≠ [] := by
    intro hcon
    rw [hcon] at h2
    simp at h2
  have hpos := chrPos_dq hne hall hq hqne
  have hk1 : 1 ≤ (if q.getD (q.length - 1) ' ' = 'b' ∧ 2 ≤ q.length
      then q.length - 2 else q.length - 1) := by
    split
    · next hcond =>
      by_cases hq2 : q.length = 2
      · exfalso
        refine hnot ⟨hq2, ?_⟩
        have hb := hcond.1
        rw [hq2] at hb
        simpa using hb
      · omega
    · next =>
      have := List.length_pos.mpr hqne
      omega
  have hk2 : (if q.getD (q.length - 1) ' ' = 'b' ∧ 2 ≤ q.length
      then q.length - 2 else q.length - 1) < q.length := by
    have := List.length_pos.mpr hqne
    split <;> omega
  generalize hgen : (if q.getD (q.length - 1) ' ' = 'b' ∧ 2 ≤ q.length
      then q.length - 2 else q.length - 1) = k at hpos hk1 hk2
  obtain ⟨x, q', rfl⟩ : ∃ x q', q = x :: q' := by
    cases q with
    | nil => exact absurd rfl hqne
    | cons a b => exact ⟨a, b, rfl⟩
  have hxq : isQualC x = true := by
    simp only [List.all_cons, Bool.and_eq_true] at hq
    exact hq.1
  have hgetk : isQualC ((d ++ x :: q').getD (d.length + k) ' ') = true := by
    rw [getD_append_len]
    exact all_getD hq hk2 _
  have htake : (d ++ x :: q').take (d.length + k) = d ++ (x :: q').take k :=
    List.take_append k
  have htakeq : (x :: q').take k = x :: q'.take (k - 1) := by
    cases k with
    | zero => omega
    | succ k0 => simp
  simp only [convertToByteCore, sizeMatch_dq hne hall hq, if_true, hpos,
    qual_mult_eq hgetk, htake, htakeq, natParseQ_qual_head hxq, exceptOk]

/-- Characterization of acceptance: `convertToByteCore` succeeds exactly on
the strings of `sizeAcceptsL`. -/
theorem core_accepts (orig : String) (a : List Char) :
    exceptOk (convertToByteCore orig a) = sizeAcceptsL a := by
  by_cases hne : (a.takeWhile isDigitC).isEmpty
  · have hm : sizeMatchL a = false := by simp [sizeMatchL, hne]
    simp [convertToByteCore, hm, exceptOk, sizeAcceptsL, hne]
  · have hdne : a.takeWhile isDigitC ≠ [] := by
      simpa [List.isEmpty_iff] using hne
    have hall : (a.takeWhile isDigitC).all isDigitC = true := all_takeWhile _ _
    have hdqa : a.takeWhile isDigitC ++ a.dropWhile isDigitC = a :=
      List.takeWhile_append_dropWhile _ _
    by_cases hq : (a.dropWhile isDigitC).all isQualC
    · cases hsq : a.dropWhile isDigitC with
      | nil =>
        have ha : a.takeWhile isDigitC = a := by
          rw [hsq] at hdqa
          simpa using hdqa
        have hane : a ≠ [] := ha ▸ hdne
        have hallA : a.all isDigitC = true := ha ▸ hall
        rw [core_digits orig a hane hallA]
        simp [exceptOk, sizeAcceptsL, hsq, hne]
      | cons x q1 =>
        rw [hsq] at hdqa hq
        simp only [List.all_cons, Bool.and_eq_true] at hq
        cases q1 with
        | nil =>
          conv_lhs => rw [← hdqa]
          rw [core_one_qual orig _ x hdne hall hq.1]
          simp [exceptOk, sizeAcceptsL, hsq, hne, hq.1]
        | cons y q2 =>
          simp only [List.all_cons, Bool.and_eq_true] at hq
          cases q2 with
          | nil =>
            by_cases hb : y = 'b'
            · subst hb
              conv_lhs => rw [← hdqa]
              rw [core_two_qual orig _ x hdne hall hq.1]
              simp [exceptOk, sizeAcceptsL, hsq, hne, hq.1]
            · conv_lhs => rw [← hdqa]
              rw [core_qual_fail orig _ [x, y] hdne hall
                (by simp [hq.1, hq.2.1]) (by simpa using hb)]
              simp [sizeAcceptsL, hsq, hne, hb]
          | cons z rest =>
            conv_lhs => rw [← hdqa]
            rw [core_qual_fail orig _ (x :: y :: z :: rest) hdne hall
              (by simp [hq.1, hq.2.1, hq.2.2]) (by simp)]
            simp [sizeAcceptsL, hsq, hne]
    · have hm : sizeMatchL a = false := by
        simp only [sizeMatchL, Bool.and_eq_false_iff]
        right
        simpa using hq
      have hL : exceptOk (convertToByteCore orig a) = false := by
        simp [convertToByteCore, hm, exceptOk]
      rw [hL]
      cases hsq : a.dropWhile isDigitC with
      | nil => exact absurd (hsq ▸ rfl) hq
      | cons x q1 =>
        rw [hsq] at hq
        cases q1 with
        | nil =>
          simp only [List.all_cons, List.all_nil, Bool.and_true] at hq
          simp [sizeAcceptsL, hsq, Bool.eq_false_iff.mpr hq]
        | cons y q2 =>
          cases q2 with
          | nil =>
            have hqf : ¬ (isQualC x = true ∧ isQualC y = true) := by
              simpa [List.all_cons, Bool.and_eq_true] using hq
            by_cases hx : isQualC x = true
            · have hy : isQualC y = false := by
                cases hyy : isQualC y
                · rfl
                · exact absurd ⟨hx, hyy⟩ hqf
              have hyb : (y = 'b') = False := by
                simp only [eq_iff_iff, iff_false]
                intro hcon
                subst hcon
                simp [isQualC] at hy
              simp [sizeAcceptsL, hsq, hyb]
            · have hx' : isQualC x = false := by
                cases hxx : isQualC x
                · rfl
                · exact absurd hxx hx
              simp [sizeAcceptsL, hsq, hx']
          | cons z rest => simp [sizeAcceptsL, hsq]

theorem lowerC_digit {c : Char} (h : isDigitC c = true) : lowerC c = c := by
  simp only [isDigitC, Bool.and_eq_true, decide_eq_true_eq] at h
  unfold lowerC
  rw [if_neg]
  simp only [Bool.and_eq_true, decide_eq_true_eq, not_and]
  omega

theorem lowerC_qual {c : Char} (h : isQualC c = true) : lowerC c = c := by
  simp only [isQualC, Bool.or_eq_true, decide_eq_true_eq] at h
  rcases h with ((((h | h) | h) | h) | h) | h <;> subst h <;> rfl

theorem map_lowerC_fixed {l : List Char} (h : ∀ c ∈ l, lowerC c = c) :
    l.map lowerC = l := by
  induction l with
  | nil => rfl
  | cons x xs ih =>
    simp only [List.map_cons, h x (by simp)]
    rw [ih fun c hc => h c (by simp [hc])]

/-- C5: the claim as frozen is refuted at the input "1kk": it matches the
documented regex `^[0-9]+(kb|k|mb|m|gb|g|tb|t|pb|p|b)*$`, yet `convertToByte`
does not accept it — after the qualifier selection the remainder "1k" fails
the numeric conversion, raising a FormatError different from
"value ... is not valid". -/
theorem c5_size_regex_counterexample :
    sizeMatch ("1kk") = true ∧ exceptOk (convertToByte ("1kk")) = false ∧
      convertToByte ("1kk") = .error (.convert ("1k")) := by
  refine ⟨by decide, by decide, by rfl⟩

/-- C5 (amended): the size parser accepts exactly the strings of digits
followed by at most one qualifier token (or the digraph `bb`), case
insensitively; on those it multiplies the digits by b=1, k=2^10, m=2^20,
g=2^30, t=2^40, p=2^50 per the qualifier letter; every other input raises a
FormatError, with the message "value ... is not valid" exactly on the inputs
failing the documented regex; and an unqualified value parses to the same
number as plain 64-bit integer parsing. -/
theorem c5_size_parser_amended :
    (∀ s : String, exceptOk (convertToByte s) = sizeAccepts s) ∧
    (∀ s : String, sizeMatch s = false → convertToByte s = .error (.notValid s)) ∧
    (multC 'b' = 1 ∧ multC 'k' = 2 ^ 10 ∧ multC 'm' = 2 ^ 20 ∧ multC 'g' = 2 ^ 30 ∧
      multC 't' = 2 ^ 40 ∧ multC 'p' = 2 ^ 50) ∧
    (∀ d : List Char, d ≠ [] → d.all isDigitC = true →
      convertToByte (String.mk d) = .ok (toString (digitsToNat d), digitsToNat d) ∧
      strToInt64 (String.mk d) =
        (if digitsToNat d < 2 ^ 63 then some ((digitsToNat d : Int)) else none)) ∧
    (∀ (d : List Char) (x : Char), d ≠ [] → d.all isDigitC = true → isQualC x = true →
      convertToByte (String.mk (d ++ [x])) =
        .ok (toString (digitsToNat d * multC x), digitsToNat d * multC x) ∧
      convertToByte (String.mk (d ++ [x, 'b'])) =
        .ok (toString (digitsToNat d * multC x), digitsToNat d * multC x)) := by
  have hfix : ∀ (d : List Char), d.all isDigitC = true → ∀ c ∈ d, lowerC c = c := by
    intro d hall c hc
    exact lowerC_digit (List.all_eq_true.mp hall c hc)
  refine ⟨?_, ?_, ⟨rfl, rfl, rfl, rfl, rfl, rfl⟩, ?_, ?_⟩
  · intro s
    exact core_accepts s _
  · intro s h
    have hfail : sizeMatchL (s.data.map lowerC) = false := h
    simp [convertToByte, convertToByteCore, hfail]
  · intro d hne hall
    have hmap : (String.mk d).data.map lowerC = d := map_lowerC_fixed (hfix d hall)
    constructor
    · show convertToByteCore _ ((String.mk d).data.map lowerC) = _
      rw [hmap]
      exact core_digits _ d hne hall
    · cases hd : d with
      | nil => exact absurd hd hne
      | cons c cs =>
        rw [hd] at hall
        have hcd : isDigitC c = true := by
          simp only [List.all_cons, Bool.and_eq_true] at hall
          exact hall.1
        have hcne : ¬ (c = '-') := by
          intro hcon
          rw [hcon] at hcd
          simp [isDigitC] at hcd
        show strToInt64 (String.mk (c :: cs)) = _
        unfold strToInt64
        simp only [if_neg hcne, hall, Bool.true_and]
        by_cases hbound : digitsToNat (c :: cs) < 2 ^ 63
        · simp [hbound]
        · simp [hbound]
  · intro d x hne hall hx
    have hqfix : ∀ c ∈ [x], lowerC c = c := by
      intro c hc
      simp only [List.mem_singleton] at hc
      subst hc
      exact lowerC_qual hx
    have hqfix2 : ∀ c ∈ [x, 'b'], lowerC c = c := by
      intro c hc
      simp only [List.mem_cons, List.mem_singleton] at hc
      rcases hc with hc | hc | hc
      · subst hc
        exact lowerC_qual hx
      · subst hc
        rfl
      · cases hc
    constructor
    · show convertToByteCore _ ((String.mk (d ++ [x])).data.map lowerC) = _
      have hmap : (String.mk (d ++ [x])).data.map lowerC = d ++ [x] := by
        show (d ++ [x]).map lowerC = d ++ [x]
        rw [List.map_append, map_lowerC_fixed (hfix d hall), map_lowerC_fixed hqfix]
      rw [hmap]
      exact core_one_qual _ d x hne hall hx
    · show convertToByteCore _ ((String.mk (d ++ [x, 'b'])).data.map lowerC) = _
      have hmap : (String.mk (d ++ [x, 'b'])).data.map lowerC = d ++ [x, 'b'] := by
        show (d ++ [x, 'b']).map lowerC = d ++ [x, 'b']
        rw [List.map_append, map_lowerC_fixed (hfix d hall), map_lowerC_fixed hqfix2]
      rw [hmap]
      exact core_two_qual _ d x hne hall hx

/-! ### Claim C1: the staging-table lookup -/

/-- C1: refuted by the code.  `parseOptionIdxValue` as written never creates
or grows the index list: for any requested index at or beyond the current
`indexListTotal` — in particular at the very first occurrence of an option,
when the list is empty — it returns `none` (the C function returns NULL,
which every caller immediately dereferences).  This contradicts the claim
that the index list is created/grown on demand and the null branch is
unreachable. -/
theorem c1_lookup_returns_null :
    parseOptionIdxValue (⟨[]⟩ : ParseOption) 0 = none ∧
      parseOptionIdxValue (⟨[{ found := true, source := .sParam }]⟩ : ParseOption) 1 = none ∧
      (⟨[]⟩ : ParseOption).indexListTotal = 0 := ⟨rfl, rfl, rfl⟩

/-! ### Claim C2: the six conflict rules of a repeated command-line option -/

/-- C2: when an option token arrives for a (id, index) already found on the
command line, phase 1 enforces exactly the six mutually exclusive rules of
the claim, in the claim's case split, and otherwise (multi option with an
argument) appends the argument. -/
theorem c2_phase1_repeat_rules (meta : Meta) (st : P1State) (id idx : Nat)
    (negate reset hasArg : Bool) (arg : String) (ov : ParseOptionValue)
    (hov : tGet st.table id idx = ov)
    (hsec : meta.secure id = false)
    (hfound : ov.found = true)
    (hnr : ¬(ov.negate = true ∧ ov.reset = true))
    (htok : ¬(negate = true ∧ reset = true)) :
    (ov.negate = true → negate = true →
      phase1Opt meta st id idx negate reset hasArg arg = .error (.optionInvalid
        ("option " ++ sq ++ meta.optionIdxName id idx ++ sq ++ " is negated multiple times"))) ∧
    (ov.reset = true → reset = true →
      phase1Opt meta st id idx negate reset hasArg arg = .error (.optionInvalid
        ("option " ++ sq ++ meta.optionIdxName id idx ++ sq ++ " is reset multiple times"))) ∧
    ((ov.reset = true ∧ negate = true) ∨ (ov.negate = true ∧ reset = true) →
      phase1Opt meta st id idx negate reset hasArg arg = .error (.optionInvalid
        ("option " ++ sq ++ meta.optionIdxName id idx ++ sq ++ " cannot be negated and reset"))) ∧
    ((ov.negate = false ∧ ov.reset = false ∧ negate = true) ∨
        (ov.negate = true ∧ negate = false ∧ reset = false) →
      phase1Opt meta st id idx negate reset hasArg arg = .error (.optionInvalid
        ("option " ++ sq ++ meta.optionIdxName id idx ++ sq ++ " cannot be set and negated"))) ∧
    ((ov.negate = false ∧ ov.reset = false ∧ negate = false ∧ reset = true) ∨
        (ov.reset = true ∧ negate = false ∧ reset = false) →
      phase1Opt meta st id idx negate reset hasArg arg = .error (.optionInvalid
        ("option " ++ sq ++ meta.optionIdxName id idx ++ sq ++ " cannot be set and reset"))) ∧
    (ov.negate = false → ov.reset = false → negate = false → reset = false →
      meta.multi id = false →
      phase1Opt meta st id idx negate reset hasArg arg = .error (.optionInvalid
        ("option " ++ sq ++ meta.optionIdxName id idx ++ sq ++ " cannot be set multiple times"))) ∧
    (ov.negate = false → ov.reset = false → negate = false → reset = false →
      meta.multi id = true → hasArg = true →
      phase1Opt meta st id idx negate reset hasArg arg = .ok { st with
        table := tSet st.table id idx { ov with valueList := ov.valueList ++ [arg] } }) := by
  refine ⟨?_, ?_, ?_, ?_, ?_, ?_, ?_⟩
  · intro h1 h2
    simp [phase1Opt, hsec, hov, hfound, h1, h2]
  · intro h1 h2
    have hovn : ov.negate = false := by
      cases h : ov.negate
      · rfl
      · exact absurd ⟨h, h1⟩ hnr
    have hn : negate = false := by
      cases h : negate
      · rfl
      · exact absurd ⟨h, h2⟩ htok
    simp [phase1Opt, hsec, hov, hfound, h1, h2, hovn, hn]
  · rintro (⟨h1, h2⟩ | ⟨h1, h2⟩)
    · have hovn : ov.negate = false := by
        cases h : ov.negate
        · rfl
        · exact absurd ⟨h, h1⟩ hnr
      have hr : reset = false := by
        cases h : reset
        · rfl
        · exact absurd ⟨h2, h⟩ htok
      simp [phase1Opt, hsec, hov, hfound, h1, h2, hovn, hr]
    · have hovr : ov.reset = false := by
        cases h : ov.reset
        · rfl
        · exact absurd ⟨h1, h⟩ hnr
      have hn : negate = false := by
        cases h : negate
        · rfl
        · exact absurd ⟨h, h2⟩ htok
      simp [phase1Opt, hsec, hov, hfound, h1, h2, hovr, hn]
  · rintro (⟨h1, h2, h3⟩ | ⟨h1, h2, h3⟩)
    · have hr : reset = false := by
        cases h : reset
        · rfl
        · exact absurd ⟨h3, h⟩ htok
      simp [phase1Opt, hsec, hov, hfound, h1, h2, h3, hr]
    · have hovr : ov.reset = false := by
        cases h : ov.reset
        · rfl
        · exact absurd ⟨h1, h⟩ hnr
      simp [phase1Opt, hsec, hov, hfound, h1, h2, h3, hovr]
  · rintro (⟨h1, h2, h3, h4⟩ | ⟨h1, h2, h3⟩)
    · simp [phase1Opt, hsec, hov, hfound, h1, h2, h3, h4]
    · have hovn : ov.negate = false := by
        cases h : ov.negate
        · rfl
        · exact absurd ⟨h, h1⟩ hnr
      simp [phase1Opt, hsec, hov, hfound, h1, h2, h3, hovn]
  · intro h1 h2 h3 h4 h5
    simp [phase1Opt, hsec, hov, hfound, h1, h2, h3, h4, h5]
  · intro h1 h2 h3 h4 h5 h6
    simp [phase1Opt, hsec, hov, hfound, h1, h2, h3, h4, h5, h6]

/-! ### Claim C3: first-found-wins across phases -/

theorem tGet_tSet_found_preserve {tbl : PTable} {eid eidx : Nat} {v : ParseOptionValue}
    (hguard : ¬ (tGet tbl eid eidx).found = true) {id idx : Nat}
    (hfound : (tGet tbl id idx).found = true) :
    tGet (tSet tbl eid eidx v) id idx = tGet tbl id idx := by
  by_cases hid : id = eid
  · by_cases hidx : idx = eidx
    · subst hid
      subst hidx
      exact absurd hfound hguard
    · exact tGet_tSet_ne _ _ _ _ _ _ (Or.inr (Ne.symm hidx))
  · exact tGet_tSet_ne _ _ _ _ _ _ (Or.inl (Ne.symm hid))

theorem phase2KeyVal_preserves {meta : Meta} {cmd : Nat} {tbl : PTable} {key value : String}
    {tbl' : PTable} (h : phase2KeyVal meta cmd tbl key value = .ok tbl') {id idx : Nat}
    (hfound : (tGet tbl id idx).found = true) :
    tGet tbl' id idx = tGet tbl id idx := by
  unfold phase2KeyVal at h
  repeat' split at h
  all_goals try simp only [reduceCtorEq] at h
  all_goals injection h with h2
  all_goals subst h2
  all_goals try rfl
  all_goals exact tGet_tSet_found_preserve (by assumption) hfound

theorem phase2Entry_preserves {meta : Meta} {cmd : Nat} {tbl : PTable} {e : String}
    {tbl' : PTable} (h : phase2Entry meta cmd tbl e = .ok tbl') {id idx : Nat}
    (hfound : (tGet tbl id idx).found = true) :
    tGet tbl' id idx = tGet tbl id idx := by
  unfold phase2Entry at h
  split at h
  · exact (Except.ok.inj h) ▸ rfl
  · split at h
    · simp only [reduceCtorEq] at h
    · exact phase2KeyVal_preserves h hfound

theorem phase2_preserves {meta : Meta} {cmd : Nat} :
    ∀ {env : List String} {tbl tbl' : PTable}, phase2 meta cmd tbl env = .ok tbl' →
      ∀ {id idx : Nat}, (tGet tbl id idx).found = true →
        tGet tbl' id idx = tGet tbl id idx := by
  intro env
  induction env with
  | nil =>
    intro tbl tbl' h id idx hfound
    exact (Except.ok.inj h) ▸ rfl
  | cons e rest ih =>
    intro tbl tbl' h id idx hfound
    unfold phase2 at h
    cases he : phase2Entry meta cmd tbl e with
    | error err =>
      rw [he] at h
      exact absurd h (fun hc => Except.noConfusion hc)
    | ok t1 =>
      rw [he] at h
      have hstep : tGet t1 id idx = tGet tbl id idx := phase2Entry_preserves he hfound
      have hfound1 : (tGet t1 id idx).found = true := by rw [hstep]; exact hfound
      have hrec := ih h hfound1
      rw [hrec, hstep]

theorem phase3Key_preserves {meta : Meta} {cmd : Nat} {ini : Ini} {secName : String}
    {tbl : PTable} {fnd : List (Nat × String)} {acc' : PTable × List (Nat × String)}
    {key : String}
    (h : phase3Key meta cmd ini secName tbl fnd key = .ok acc') {id idx : Nat}
    (hfound : (tGet tbl id idx).found = true) :
    tGet acc'.1 id idx = tGet tbl id idx := by
  unfold phase3Key at h
  split at h
  · exact (Except.ok.inj h) ▸ rfl
  next ent hfn =>
    by_cases hneg : ent.negate = true
    · rw [if_pos hneg] at h
      exact (Except.ok.inj h) ▸ rfl
    · rw [if_neg hneg] at h
      by_cases hres : ent.reset = true
      · rw [if_pos hres] at h
        exact (Except.ok.inj h) ▸ rfl
      · rw [if_neg hres] at h
        by_cases hcl : meta.optSec ent.optId = OptSec.commandLine
        · rw [if_pos hcl] at h
          exact (Except.ok.inj h) ▸ rfl
        · rw [if_neg hcl] at h
          cases hlk : List.lookup ent.optId fnd with
          | some prev =>
            rw [hlk] at h
            exact absurd h (fun hc => Except.noConfusion hc)
          | none =>
            rw [hlk] at h
            dsimp only at h
            by_cases hval : (!meta.validFor cmd ent.optId) = true
            · rw [if_pos hval] at h
              exact (Except.ok.inj h) ▸ rfl
            · rw [if_neg hval] at h
              by_cases hst : (decide (meta.optSec ent.optId = OptSec.stanza) &&
                  strStarts secName ("global")) = true
              · rw [if_pos hst] at h
                exact (Except.ok.inj h) ▸ rfl
              · rw [if_neg hst] at h
                by_cases hfd : (tGet tbl ent.optId ent.optIdx).found = true
                · rw [if_pos hfd] at h
                  exact (Except.ok.inj h) ▸ rfl
                · rw [if_neg hfd] at h
                  by_cases hisl : ini.isList secName key = true
                  · rw [if_pos hisl] at h
                    by_cases hmul : (!meta.multi ent.optId) = true
                    · rw [if_pos hmul] at h
                      exact absurd h (fun hc => Except.noConfusion hc)
                    · rw [if_neg hmul] at h
                      rw [← Except.ok.inj h]
                      exact tGet_tSet_found_preserve hfd hfound
                  · rw [if_neg hisl] at h
                    by_cases hel : (ini.get secName key).length = 0
                    · rw [if_pos hel] at h
                      exact absurd h (fun hc => Except.noConfusion hc)
                    · rw [if_neg hel] at h
                      by_cases hbool : meta.optType ent.optId = OptType.boolean
                      · rw [if_pos hbool] at h
                        by_cases hn : ini.get secName key = "n"
                        · rw [if_pos hn] at h
                          rw [← Except.ok.inj h]
                          exact tGet_tSet_found_preserve hfd hfound
                        · rw [if_neg hn] at h
                          by_cases hy : ini.get secName key = "y"
                          · rw [if_pos hy] at h
                            rw [← Except.ok.inj h]
                            exact tGet_tSet_found_preserve hfd hfound
                          · rw [if_neg hy] at h
                            exact absurd h (fun hc => Except.noConfusion hc)
                      · rw [if_neg hbool] at h
                        rw [← Except.ok.inj h]
                        exact tGet_tSet_found_preserve hfd hfound

theorem phase3Keys_preserves {meta : Meta} {cmd : Nat} {ini : Ini} {secName : String} :
    ∀ {keys : List String} {tbl : PTable} {fnd : List (Nat × String)}
      {acc' : PTable × List (Nat × String)},
      phase3Keys meta cmd ini secName tbl fnd keys = .ok acc' →
      ∀ {id idx : Nat}, (tGet tbl id idx).found = true →
        tGet acc'.1 id idx = tGet tbl id idx := by
  intro keys
  induction keys with
  | nil =>
    intro tbl fnd acc' h id idx hfound
    exact (Except.ok.inj h) ▸ rfl
  | cons k rest ih =>
    intro tbl fnd acc' h id idx hfound
    unfold phase3Keys at h
    cases hk : phase3Key meta cmd ini secName tbl fnd k with
    | error err =>
      rw [hk] at h
      exact absurd h (fun hc => Except.noConfusion hc)
    | ok acc1 =>
      rw [hk] at h
      have hstep : tGet acc1.1 id idx = tGet tbl id idx := phase3Key_preserves hk hfound
      have hfound1 : (tGet acc1.1 id idx).found = true := by rw [hstep]; exact hfound
      have hrec := ih h hfound1
      rw [hrec, hstep]

theorem phase3Section_preserves {meta : Meta} {cmd : Nat} {ini : Ini} {secName : String}
    {tbl tbl' : PTable} (h : phase3Section meta cmd ini tbl secName = .ok tbl')
    {id idx : Nat} (hfound : (tGet tbl id idx).found = true) :
    tGet tbl' id idx = tGet tbl id idx := by
  unfold phase3Section at h
  split at h
  · next acc hk =>
    have hp := phase3Keys_preserves hk hfound
    exact (Except.ok.inj h) ▸ hp
  · exact absurd h (fun hc => Except.noConfusion hc)

theorem phase3Sections_preserves {meta : Meta} {cmd : Nat} {ini : Ini} :
    ∀ {sects : List String} {tbl tbl' : PTable},
      phase3Sections meta cmd ini tbl sects = .ok tbl' →
      ∀ {id idx : Nat}, (tGet tbl id idx).found = true →
        tGet tbl' id idx = tGet tbl id idx := by
  intro sects
  induction sects with
  | nil =>
    intro tbl tbl' h id idx hfound
    exact (Except.ok.inj h) ▸ rfl
  | cons sec rest ih =>
    intro tbl tbl' h id idx hfound
    unfold phase3Sections at h
    cases hs : phase3Section meta cmd ini tbl sec with
    | error err =>
      rw [hs] at h
      exact absurd h (fun hc => Except.noConfusion hc)
    | ok t1 =>
      rw [hs] at h
      have hstep : tGet t1 id idx = tGet tbl id idx := phase3Section_preserves hs hfound
      have hfound1 : (tGet t1 id idx).found = true := by rw [hstep]; exact hfound
      have hrec := ih h hfound1
      rw [hrec, hstep]

theorem phase3_preserves {meta : Meta} {cmd : Nat} {iniOf : String → Option Ini}
    {fs : Storage} {tbl tbl' : PTable} (h : phase3 meta cmd iniOf fs tbl = .ok tbl')
    {id idx : Nat} (hfound : (tGet tbl id idx).found = true) :
    tGet tbl' id idx = tGet tbl id idx := by
  unfold phase3 at h
  repeat' split at h
  all_goals try exact absurd h (fun hc => Except.noConfusion hc)
  all_goals try exact (Except.ok.inj h) ▸ rfl
  all_goals exact phase3Sections_preserves h hfound

/-- C3: source precedence is first-found-wins.  Any staging record already
`found` when phase 2 starts is returned unchanged by phase 2; any record
`found` when phase 3 starts (command line or environment) is returned
unchanged by phase 3; and inside phase 3, a record found after any earlier
section of the search order is unchanged by the remaining sections. -/
theorem c3_first_found_wins (meta : Meta) (cmd : Nat) (env : List String)
    (iniOf : String → Option Ini) (fs : Storage) (tbl tbl2 tbl3 : PTable)
    (h2 : phase2 meta cmd tbl env = .ok tbl2)
    (h3 : phase3 meta cmd iniOf fs tbl2 = .ok tbl3) :
    (∀ id idx, (tGet tbl id idx).found = true → tGet tbl2 id idx = tGet tbl id idx) ∧
    (∀ id idx, (tGet tbl2 id idx).found = true → tGet tbl3 id idx = tGet tbl2 id idx) ∧
    (∀ id idx, (tGet tbl id idx).found = true → tGet tbl3 id idx = tGet tbl id idx) ∧
    (∀ (ini : Ini) (sects : List String) (t t' : PTable),
      phase3Sections meta cmd ini t sects = .ok t' →
      ∀ id idx, (tGet t id idx).found = true → tGet t' id idx = tGet t id idx) := by
  refine ⟨fun id idx hf => phase2_preserves h2 hf,
    fun id idx hf => phase3_preserves h3 hf, ?_, ?_⟩
  · intro id idx hf
    have s2 := phase2_preserves h2 hf
    have hf2 : (tGet tbl2 id idx).found = true := by rw [s2]; exact hf
    have s3 := phase3_preserves h3 hf2
    rw [s3, s2]
  · intro ini sects t t' hs id idx hf
    exact phase3Sections_preserves hs hf

/-- Witness for C3: a concrete `--compress` command-line record survives an
environment override attempt and an (empty) file pass unchanged. -/
theorem c3_first_found_wins_witness :
    tGet (tSet tEmpty 4 0 { found := true, source := .sParam }) 4 0 =
      tGet (tSet tEmpty 4 0 { found := true, source := .sParam }) 4 0 :=
  (c3_first_found_wins tMeta 1 (["PGBACKREST_COMPRESS=n"]) (fun _ => none)
    ⟨fun _ => none, fun _ => none⟩ (tSet tEmpty 4 0 { found := true, source := .sParam })
    (tSet tEmpty 4 0 { found := true, source := .sParam })
    (tSet tEmpty 4 0 { found := true, source := .sParam }) rfl rfl).1 4 0 rfl

/-! ### Claim C6: the legacy config-file fallback -/

/-- C6: in the main-file step of `cfgFileLoad`, the legacy location is read
exactly when the chosen config file was read as missing-allowed and found
absent while its name still equals the passed-in (pre-rebase) default; the
retry is a single read of the legacy path under the same ignore-missing
policy; in every other case (`--no-config`, file present, explicit `--config`
missing, or a rebased/explicit name differing from the default) no legacy
read happens. -/
theorem c6_legacy_fallback (fs : Storage) (meta : Meta) (tbl : PTable) (d o : String) :
    (noConfig meta tbl = true → mainFileLoad fs meta tbl d o = .ok (none, [])) ∧
    (∀ c, noConfig meta tbl = false → fs.fileGet (mainFileName meta tbl d) = some c →
      mainFileLoad fs meta tbl d o =
        .ok (some c, [(mainFileName meta tbl d, !configRequiredF meta tbl)])) ∧
    (noConfig meta tbl = false → fs.fileGet (mainFileName meta tbl d) = none →
      configRequiredF meta tbl = true →
      mainFileLoad fs meta tbl d o = .error (.fileMissing (mainFileName meta tbl d))) ∧
    (noConfig meta tbl = false → fs.fileGet (mainFileName meta tbl d) = none →
      configRequiredF meta tbl = false → mainFileName meta tbl d = d →
      mainFileLoad fs meta tbl d o =
        .ok (fs.fileGet o, [(mainFileName meta tbl d, true), (o, true)])) ∧
    (noConfig meta tbl = false → fs.fileGet (mainFileName meta tbl d) = none →
      configRequiredF meta tbl = false → mainFileName meta tbl d ≠ d →
      mainFileLoad fs meta tbl d o = .ok (none, [(mainFileName meta tbl d, true)])) := by
  refine ⟨?_, ?_, ?_, ?_, ?_⟩
  · intro hnc
    unfold mainFileLoad
    rw [hnc]
    rfl
  · intro c hnc hget
    unfold mainFileLoad storageGetLog
    rw [hnc, hget]
    rfl
  · intro hnc hget hreq
    unfold mainFileLoad storageGetLog
    rw [hnc, hget, hreq]
    rfl
  · intro hnc hget hreq heq
    rw [heq] at hget
    cases ho : fs.fileGet o <;>
      simp [mainFileLoad, storageGetLog, hnc, hget, hreq, heq, ho]
  · intro hnc hget hreq hne
    simp [mainFileLoad, storageGetLog, hnc, hget, hreq, hne]

/-- Witness for C6: with no `--config`/`--config-path` options, a filesystem
missing the default file but carrying the legacy file, the loader reads the
default and then the legacy path once, both with ignore-missing. -/
theorem c6_legacy_fallback_witness :
    mainFileLoad
      ⟨fun p => if p = "/etc/pgbackrest.conf" then some ("[global]") else none, fun _ => none⟩
      tMeta tEmpty ("/etc/pgbackrest/pgbackrest.conf") ("/etc/pgbackrest.conf") =
      .ok (some ("[global]"),
        [("/etc/pgbackrest/pgbackrest.conf", true), ("/etc/pgbackrest.conf", true)]) := by
  have h := (c6_legacy_fallback
    ⟨fun p => if p = "/etc/pgbackrest.conf" then some ("[global]") else none, fun _ => none⟩
    tMeta tEmpty ("/etc/pgbackrest/pgbackrest.conf") ("/etc/pgbackrest.conf")).2.2.2.1
    (by decide) (by decide) (by decide) (by decide)
  exact h

/-! ### Claim C9: early return when no real command is set -/

/-- C9: when phase 1 ends with no concrete command (bare help, no arguments,
or the version command), `configParse` returns the phase-1 configuration as
is: the result does not depend on the environment, the filesystem or the INI
reader — none of them is consulted — and the returned configuration has no
option validated or committed and no group resolved. -/
theorem c9_early_return (meta : Meta) (args : List Arg)
    (h : phase1Stops meta args = true) :
    (∀ (iniOf : String → Option Ini) (env : List String) (fs : Storage),
      configParse meta iniOf ⟨args, env, fs⟩ = (phase1 meta args).map phase1Config) ∧
    (∀ st : P1State,
      (phase1Config st).optionValidOut = (fun _ => false) ∧
      (phase1Config st).optionValue = (fun _ _ => ({} : ConfigOptionValue)) ∧
      (phase1Config st).groupIndexTotal = (fun _ => 0) ∧
      (phase1Config st).groupIndexes = (fun _ => [])) := by
  constructor
  · intro iniOf env fs
    unfold phase1Stops at h
    unfold configParse
    cases hp : phase1 meta args with
    | error err =>
      rw [hp] at h
      exact absurd h (by simp)
    | ok st =>
      simp only [hp] at h
      have hreal : realCommand meta st = false := by
        cases hr : realCommand meta st
        · rfl
        · rw [hr] at h
          exact absurd h (by simp)
      simp [hp, hreal, Except.map]
  · intro st
    exact ⟨rfl, rfl, rfl, rfl⟩

/-- Witness for C9: the `version` command with a non-trivial environment and
filesystem returns the phase-1 result unchanged. -/
theorem c9_early_return_witness :
    configParse tMeta (fun _ => none)
      ⟨[Arg.word ("version")], ["PGBACKREST_COMPRESS=n"],
        ⟨fun _ => some ("x"), fun _ => none⟩⟩ =
      (phase1 tMeta [Arg.word ("version")]).map phase1Config :=
  (c9_early_return tMeta [Arg.word ("version")] (by decide)).1 _ _ _

/-! ### Claim C8: group compaction and invalid options -/

theorem phase2KeyVal_invalid_untouched {meta : Meta} {cmd : Nat} {tbl : PTable}
    {key value : String} {tbl' : PTable}
    (h : phase2KeyVal meta cmd tbl key value = .ok tbl') {id : Nat}
    (hinv : meta.validFor cmd id = false) : tbl' id = tbl id := by
  unfold phase2KeyVal at h
  repeat' split at h
  all_goals try simp only [reduceCtorEq] at h
  all_goals injection h with h2
  all_goals subst h2
  all_goals try rfl
  all_goals
    exact tSet_other_id _ _ _ _ _ (by
      intro hcon
      subst hcon
      simp_all)

theorem phase2Entry_invalid_untouched {meta : Meta} {cmd : Nat} {tbl : PTable} {e : String}
    {tbl' : PTable} (h : phase2Entry meta cmd tbl e = .ok tbl') {id : Nat}
    (hinv : meta.validFor cmd id = false) : tbl' id = tbl id := by
  unfold phase2Entry at h
  split at h
  · exact (Except.ok.inj h) ▸ rfl
  · split at h
    · simp only [reduceCtorEq] at h
    · exact phase2KeyVal_invalid_untouched h hinv

theorem phase2_invalid_untouched {meta : Meta} {cmd : Nat} :
    ∀ {env : List String} {tbl tbl' : PTable}, phase2 meta cmd tbl env = .ok tbl' →
      ∀ {id : Nat}, meta.validFor cmd id = false → tbl' id = tbl id := by
  intro env
  induction env with
  | nil =>
    intro tbl tbl' h id hinv
    exact (Except.ok.inj h) ▸ rfl
  | cons e rest ih =>
    intro tbl tbl' h id hinv
    unfold phase2 at h
    cases he : phase2Entry meta cmd tbl e with
    | error err =>
      rw [he] at h
      exact absurd h (fun hc => Except.noConfusion hc)
    | ok t1 =>
      rw [he] at h
      rw [ih h hinv, phase2Entry_invalid_untouched he hinv]

theorem phase3Key_invalid_untouched {meta : Meta} {cmd : Nat} {ini : Ini} {secName : String}
    {tbl : PTable} {fnd : List (Nat × String)} {acc' : PTable × List (Nat × String)}
    {key : String}
    (h : phase3Key meta cmd ini secName tbl fnd key = .ok acc') {id : Nat}
    (hinv : meta.validFor cmd id = false) : acc'.1 id = tbl id := by
  unfold phase3Key at h
  split at h
  · exact (Except.ok.inj h) ▸ rfl
  next ent hfn =>
    by_cases hneg : ent.negate = true
    · rw [if_pos hneg] at h
      exact (Except.ok.inj h) ▸ rfl
    · rw [if_neg hneg] at h
      by_cases hres : ent.reset = true
      · rw [if_pos hres] at h
        exact (Except.ok.inj h) ▸ rfl
      · rw [if_neg hres] at h
        by_cases hcl : meta.optSec ent.optId = OptSec.commandLine
        · rw [if_pos hcl] at h
          exact (Except.ok.inj h) ▸ rfl
        · rw [if_neg hcl] at h
          cases hlk : List.lookup ent.optId fnd with
          | some prev =>
            rw [hlk] at h
            exact absurd h (fun hc => Except.noConfusion hc)
          | none =>
            rw [hlk] at h
            dsimp only at h
            by_cases hval : (!meta.validFor cmd ent.optId) = true
            · rw [if_pos hval] at h
              exact (Except.ok.inj h) ▸ rfl
            · rw [if_neg hval] at h
              have hne : id ≠ ent.optId := by
                intro hcon
                subst hcon
                simp_all
              by_cases hst : (decide (meta.optSec ent.optId = OptSec.stanza) &&
                  strStarts secName ("global")) = true
              · rw [if_pos hst] at h
                exact (Except.ok.inj h) ▸ rfl
              · rw [if_neg hst] at h
                by_cases hfd : (tGet tbl ent.optId ent.optIdx).found = true
                · rw [if_pos hfd] at h
                  exact (Except.ok.inj h) ▸ rfl
                · rw [if_neg hfd] at h
                  by_cases hisl : ini.isList secName key = true
                  · rw [if_pos hisl] at h
                    by_cases hmul : (!meta.multi ent.optId) = true
                    · rw [if_pos hmul] at h
                      exact absurd h (fun hc => Except.noConfusion hc)
                    · rw [if_neg hmul] at h
                      rw [← Except.ok.inj h]
                      exact tSet_other_id _ _ _ _ _ hne
                  · rw [if_neg hisl] at h
                    by_cases hel : (ini.get secName key).length = 0
                    · rw [if_pos hel] at h
                      exact absurd h (fun hc => Except.noConfusion hc)
                    · rw [if_neg hel] at h
                      by_cases hbool : meta.optType ent.optId = OptType.boolean
                      · rw [if_pos hbool] at h
                        by_cases hn : ini.get secName key = "n"
                        · rw [if_pos hn] at h
                          rw [← Except.ok.inj h]
                          exact tSet_other_id _ _ _ _ _ hne
                        · rw [if_neg hn] at h
                          by_cases hy : ini.get secName key = "y"
                          · rw [if_pos hy] at h
                            rw [← Except.ok.inj h]
                            exact tSet_other_id _ _ _ _ _ hne
                          · rw [if_neg hy] at h
                            exact absurd h (fun hc => Except.noConfusion hc)
                      · rw [if_neg hbool] at h
                        rw [← Except.ok.inj h]
                        exact tSet_other_id _ _ _ _ _ hne

theorem phase3Keys_invalid_untouched {meta : Meta} {cmd : Nat} {ini : Ini} {secName : String} :
    ∀ {keys : List String} {tbl : PTable} {fnd : List (Nat × String)}
      {acc' : PTable × List (Nat × String)},
      phase3Keys meta cmd ini secName tbl fnd keys = .ok acc' →
      ∀ {id : Nat}, meta.validFor cmd id = false → acc'.1 id = tbl id := by
  intro keys
  induction keys with
  | nil =>
    intro tbl fnd acc' h id hinv
    exact (Except.ok.inj h) ▸ rfl
  | cons k rest ih =>
    intro tbl fnd acc' h id hinv
    unfold phase3Keys at h
    cases hk : phase3Key meta cmd ini secName tbl fnd k with
    | error err =>
      rw [hk] at h
      exact absurd h (fun hc => Except.noConfusion hc)
    | ok acc1 =>
      rw [hk] at h
      rw [ih h hinv, phase3Key_invalid_untouched hk hinv]

theorem phase3Section_invalid_untouched {meta : Meta} {cmd : Nat} {ini : Ini}
    {secName : String} {tbl tbl' : PTable}
    (h : phase3Section meta cmd ini tbl secName = .ok tbl') {id : Nat}
    (hinv : meta.validFor cmd id = false) : tbl' id = tbl id := by
  unfold phase3Section at h
  split at h
  · next acc hk =>
    exact (Except.ok.inj h) ▸ phase3Keys_invalid_untouched hk hinv
  · exact absurd h (fun hc => Except.noConfusion hc)

theorem phase3Sections_invalid_untouched {meta : Meta} {cmd : Nat} {ini : Ini} :
    ∀ {sects : List String} {tbl tbl' : PTable},
      phase3Sections meta cmd ini tbl sects = .ok tbl' →
      ∀ {id : Nat}, meta.validFor cmd id = false → tbl' id = tbl id := by
  intro sects
  induction sects with
  | nil =>
    intro tbl tbl' h id hinv
    exact (Except.ok.inj h) ▸ rfl
  | cons sec rest ih =>
    intro tbl tbl' h id hinv
    unfold phase3Sections at h
    cases hs : phase3Section meta cmd ini tbl sec with
    | error err =>
      rw [hs] at h
      exact absurd h (fun hc => Except.noConfusion hc)
    | ok t1 =>
      rw [hs] at h
      rw [ih h hinv, phase3Section_invalid_untouched hs hinv]

theorem phase3_invalid_untouched {meta : Meta} {cmd : Nat} {iniOf : String → Option Ini}
    {fs : Storage} {tbl tbl' : PTable} (h : phase3 meta cmd iniOf fs tbl = .ok tbl')
    {id : Nat} (hinv : meta.validFor cmd id = false) : tbl' id = tbl id := by
  unfold phase3 at h
  repeat' split at h
  all_goals try exact absurd h (fun hc => Except.noConfusion hc)
  all_goals try exact (Except.ok.inj h) ▸ rfl
  all_goals exact phase3Sections_invalid_untouched h hinv

/-- C8: phase-4 group compaction.  The dense external index list of each
group is strictly ascending and contains exactly the raw indexes at which
some member option, valid for the command, has a found staging record;
`indexTotal` is its length; the phase errors exactly when some option invalid
for the command has staging entries, naming the first such option and the
command; and phases 2 and 3 never create entries for options invalid for the
command, so such entries can only come from the command line. -/
theorem c8_group_compaction (meta : Meta) (cmd : Nat) (tbl : PTable) :
    (∀ id, phase4InvalidFind meta cmd tbl = some id →
      phase4 meta cmd tbl = .error (.optionInvalid
        ("option " ++ sq ++ meta.optionName id ++ sq ++ " not valid for command " ++ sq ++
          meta.cmdName cmd ++ sq)) ∧
      meta.validFor cmd id = false ∧ 0 < (tbl id).indexList.length) ∧
    ((∃ id, id < meta.optTotal ∧ meta.validFor cmd id = false ∧
        0 < (tbl id).indexList.length) ↔ (∃ e, phase4 meta cmd tbl = .error e)) ∧
    (∀ g, List.Pairwise (· < ·) (groupIndexList meta cmd tbl g)) ∧
    (∀ g i, i ∈ groupIndexList meta cmd tbl g ↔
      (i < meta.indexMax ∧ ∃ id, id < meta.optTotal ∧ meta.validFor cmd id = true ∧
        meta.groupOf id = some g ∧ i < (tbl id).indexList.length ∧
        ((tbl id).valueAt i).found = true)) ∧
    (phase4InvalidFind meta cmd tbl = none →
      phase4 meta cmd tbl = .ok (fun id => decide (id < meta.optTotal) && meta.validFor cmd id,
        ⟨fun g => (groupIndexList meta cmd tbl g).length, groupIndexList meta cmd tbl⟩)) ∧
    (∀ (env : List String) (iniOf : String → Option Ini) (fs : Storage) (tbl2 tbl3 : PTable)
      (id : Nat), phase2 meta cmd tbl env = .ok tbl2 → phase3 meta cmd iniOf fs tbl2 = .ok tbl3 →
      meta.validFor cmd id = false → tbl3 id = tbl id) := by
  refine ⟨?_, ?_, ?_, ?_, ?_, ?_⟩
  · intro id hfind
    refine ⟨by unfold phase4; rw [hfind], ?_⟩
    have hp := List.find?_some hfind
    simp only [Bool.and_eq_true, Bool.not_eq_true', decide_eq_true_eq] at hp
    exact ⟨hp.1, hp.2⟩
  · constructor
    · rintro ⟨id, hid, hinv, hlen⟩
      have : (phase4InvalidFind meta cmd tbl).isSome := by
        unfold phase4InvalidFind
        rw [List.find?_isSome]
        exact ⟨id, by simpa using hid, by simp [hinv, hlen]⟩
      cases hfind : phase4InvalidFind meta cmd tbl with
      | none => rw [hfind] at this; simp at this
      | some j =>
        exact ⟨.optionInvalid
          ("option " ++ sq ++ meta.optionName j ++ sq ++ " not valid for command " ++ sq ++
            meta.cmdName cmd ++ sq), by unfold phase4; rw [hfind]⟩
    · rintro ⟨e, he⟩
      unfold phase4 at he
      cases hfind : phase4InvalidFind meta cmd tbl with
      | none => rw [hfind] at he; exact absurd he (fun hc => Except.noConfusion hc)
      | some j =>
        have hp := List.find?_some hfind
        simp only [Bool.and_eq_true, Bool.not_eq_true', decide_eq_true_eq] at hp
        have hidlt : j ∈ List.range meta.optTotal := List.mem_of_find?_eq_some hfind
        exact ⟨j, by simpa using hidlt, hp.1, hp.2⟩
  · intro g
    exact (List.pairwise_lt_range meta.indexMax).filter _
  · intro g i
    unfold groupIndexList
    rw [List.mem_filter, List.mem_range]
    unfold groupMarked
    rw [List.any_eq_true]
    constructor
    · rintro ⟨hlt, ⟨id, hmem, hp⟩⟩
      simp only [Bool.and_eq_true, decide_eq_true_eq] at hp
      exact ⟨hlt, id, by simpa using hmem, hp.1.1.1, hp.1.1.2, hp.1.2, hp.2⟩
    · rintro ⟨hlt, id, hid, hval, hg, hlen, hfnd⟩
      refine ⟨hlt, ⟨id, by simpa using hid, ?_⟩⟩
      simp [hval, hg, hlen, hfnd]
  · intro hfind
    unfold phase4
    rw [hfind]
  · intro env iniOf fs tbl2 tbl3 id h2 h3 hinv
    rw [phase3_invalid_untouched h3 hinv, phase2_invalid_untouched h2 hinv]

/-- Witness for C8: with `pg1-path` and `pg3-path` found on the command line,
external index 1 maps to raw index 2 and the compaction is exercised through
the theorem at the concrete table. -/
theorem c8_group_compaction_witness :
    (2 : Nat) ∈ groupIndexList tMeta 1
      (tSet (tSet tEmpty 9 0 { found := true, source := .sParam, valueList := ["/p1"] }) 9 2
        { found := true, source := .sParam, valueList := ["/p3"] }) 0 :=
  ((c8_group_compaction tMeta 1
    (tSet (tSet tEmpty 9 0 { found := true, source := .sParam, valueList := ["/p1"] }) 9 2
      { found := true, source := .sParam, valueList := ["/p3"] })).2.2.2.1 0 2).mpr
    ⟨by decide, 9, by decide, by decide, by decide, by decide, by decide⟩

/-- C7: phase 5 dependency check. (1) An error is raised only when the
dependent option is set with source Param. (2) A null depend target with a
Param-set dependent raises `OptionInvalidError` "option <a> not valid
without option <b>". (3) A null depend target otherwise resolves to false
without error. (4) A string/path depend value outside a one-element allow
list appends " = <v>". (5) Outside a two-element list, " in (<v1>, <v2>)"
is appended. (6) A boolean depend whose single allowed value is "0" names
the option "no-<b>". (7) A dependent resolved false (env/file source) is
committed as null without error. -/
theorem c7_depend_check (meta : Meta) (cmd : Nat) (committed : Nat → Option Variant)
    (id depId : Nat) (oset : Bool) (src : CfgSource) (w : Variant) (v1 v2 : String)
    (help : Bool) (pov : ParseOptionValue) :
    ((∃ e, dependResolve meta cmd committed id oset src = .error e) →
      oset = true ∧ src = .sParam) ∧
    (meta.dependOf cmd id = some depId → committed depId = none →
      dependResolve meta cmd committed id true .sParam =
        .error (.optionInvalid ("option " ++ sq ++ meta.optionName id ++ sq ++
          " not valid without option " ++ sq ++ meta.optionName depId ++ sq))) ∧
    (meta.dependOf cmd id = some depId → committed depId = none →
      (oset = false ∨ src ≠ .sParam) →
      dependResolve meta cmd committed id oset src = .ok false) ∧
    (meta.dependOf cmd id = some depId →
      (meta.optType depId = .str ∨ meta.optType depId = .path) →
      committed depId = some w → meta.dependValues cmd id = [v1] → v1 ≠ w.asStr →
      dependResolve meta cmd committed id true .sParam =
        .error (.optionInvalid ("option " ++ sq ++ meta.optionName id ++ sq ++
          " not valid without option " ++ sq ++ meta.optionName depId ++ sq ++
          (" = " ++ (sq ++ v1 ++ sq))))) ∧
    (meta.dependOf cmd id = some depId →
      (meta.optType depId = .str ∨ meta.optType depId = .path) →
      committed depId = some w → meta.dependValues cmd id = [v1, v2] →
      v1 ≠ w.asStr → v2 ≠ w.asStr →
      dependResolve meta cmd committed id true .sParam =
        .error (.optionInvalid ("option " ++ sq ++ meta.optionName id ++ sq ++
          " not valid without option " ++ sq ++ meta.optionName depId ++ sq ++
          (" in (" ++ String.intercalate (", ") [sq ++ v1 ++ sq, sq ++ v2 ++ sq] ++ ")")))) ∧
    (meta.dependOf cmd id = some depId → meta.optType depId = .boolean →
      committed depId = some w → w.asBool = true → meta.dependValues cmd id = ["0"] →
      dependResolve meta cmd committed id true .sParam =
        .error (.optionInvalid ("option " ++ sq ++ meta.optionName id ++ sq ++
          " not valid without option " ++ sq ++ ("no-" ++ meta.optionName depId) ++ sq))) ∧
    (dependResolve meta cmd committed id (optionSetOf meta id pov) pov.source = .ok false →
      resolveOne meta cmd help committed id pov =
        .ok { negate := pov.negate, reset := pov.reset }) := by
  refine ⟨?_, ?_, ?_, ?_, ?_, ?_, ?_⟩
  · rintro ⟨e, h⟩
    unfold dependResolve at h
    repeat' split at h
    all_goals try exact absurd h (fun hc => Except.noConfusion hc)
    all_goals simp_all [Bool.and_eq_true, decide_eq_true_eq]
  · intro hdep hc
    simp [dependResolve, hdep, hc]
  · intro hdep hc hno
    rcases hno with hno | hno
    · simp [dependResolve, hdep, hc, hno]
    · simp [dependResolve, hdep, hc, hno]
  · intro hdep hty hc hvals hne
    have hnb : meta.optType depId ≠ .boolean := by
      rcases hty with h | h <;> simp [h]
    have hdv : dependValStr meta depId w = w.asStr := by
      simp [dependValStr, hnb]
    have hcontains : ([v1].contains w.asStr) = false := by
      simp [List.contains]
      exact fun hq => absurd hq.symm hne
    have hinfo : dependErrInfo meta depId (meta.optType depId) [v1]
        (meta.optionName depId, []) = .ok (meta.optionName depId, [sq ++ v1 ++ sq]) := by
      rcases hty with h | h <;> simp [dependErrInfo, h]
    simp [dependResolve, hdep, hc, hvals, hdv, hcontains, hinfo]
    exact fun hq => hne hq.symm
  · intro hdep hty hc hvals hne1 hne2
    have hnb : meta.optType depId ≠ .boolean := by
      rcases hty with h | h <;> simp [h]
    have hdv : dependValStr meta depId w = w.asStr := by
      simp [dependValStr, hnb]
    have hcontains : ([v1, v2].contains w.asStr) = false := by
      simp [List.contains]
      exact ⟨fun hq => absurd hq.symm hne1, fun hq => absurd hq.symm hne2⟩
    have hinfo : dependErrInfo meta depId (meta.optType depId) [v1, v2]
        (meta.optionName depId, []) =
        .ok (meta.optionName depId, [sq ++ v1 ++ sq, sq ++ v2 ++ sq]) := by
      rcases hty with h | h <;> simp [dependErrInfo, h]
    simp [dependResolve, hdep, hc, hvals, hdv, hcontains, hinfo]
    exact ⟨fun hq => hne1 hq.symm, fun hq => hne2 hq.symm⟩
  · intro hdep hty hc hb hvals
    have hdv : dependValStr meta depId w = "1" := by
      simp [dependValStr, hty, hb]
    have hcontains : (["0"].contains ("1" : String)) = false := by decide
    have hinfo : dependErrInfo meta depId (meta.optType depId) ["0"]
        (meta.optionName depId, []) = .ok ("no-" ++ meta.optionName depId, []) := by
      simp [dependErrInfo, hty]
    simp [dependResolve, hdep, hc, hvals, hdv, hcontains, hinfo, String.append_empty]
  · intro h
    simp [resolveOne, h]
    rfl

theorem c7_depend_check_witness :
    dependResolve tMeta 4 (fun _ => none) 7 true .sParam =
      .error (.optionInvalid ("option " ++ sq ++ tMeta.optionName 7 ++ sq ++
        " not valid without option " ++ sq ++ tMeta.optionName 8 ++ sq)) ∧
    dependResolve tMeta 1 (fun d => if d = 3 then some (.vStr "mystanza") else none) 12
        true .sParam =
      .error (.optionInvalid ("option " ++ sq ++ tMeta.optionName 12 ++ sq ++
        " not valid without option " ++ sq ++ tMeta.optionName 3 ++ sq ++
        (" = " ++ (sq ++ "fast" ++ sq)))) :=
  ⟨(c7_depend_check tMeta 4 (fun _ => none) 7 8 true .sParam (.vBool true) "" ""
      false {}).2.1 rfl rfl,
   (c7_depend_check tMeta 1 (fun d => if d = 3 then some (.vStr "mystanza") else none) 12 3
      true .sParam (.vStr "mystanza") "fast" "" false {}).2.2.2.1 rfl (Or.inl rfl) rfl rfl
      (by decide)⟩

theorem okBind (a : α) (f : α → Except ParseError β) : (Except.ok a >>= f) = f a := rfl

/-- C10: the allow-list check of phase 5 applies to the numeric scalar types
Integer, Float and Size as well: a value that passes numeric parsing and
range checking but is missing from a declared allow list raises
`OptionInvalidValueError` "<v> is not allowed for <opt> option" (for Size,
with the value rewritten in bytes); a listed value is committed. -/
theorem c10_allow_list_numeric (meta : Meta) (cmd id : Nat) (pov : ParseOptionValue)
    (l : List String) (v : String) (d : Rat) :
    (meta.optType id = .integer ∨ meta.optType id = .float ∨ meta.optType id = .size) →
    numericCheck meta cmd id (pov.valueList.getD 0 "") = .ok (v, d) →
    meta.allowList cmd id = some l →
    ((l.contains v = false →
      coerceValue meta cmd id pov =
        .error (.optionInvalidValue
          (sq ++ v ++ sq ++ " is not allowed for " ++ sq ++ meta.optionName id ++ sq ++
            " option"))) ∧
     (l.contains v = true →
      coerceValue meta cmd id pov =
        .ok { negate := pov.negate, reset := pov.reset, source := pov.source,
              value := some (.vStr v) })) := by
  intro hty hnum hallow
  rw [List.getD_eq_getElem?_getD] at hnum
  constructor
  · intro hcontains
    have hmem : ¬ v ∈ l := by simpa using hcontains
    rcases hty with h | h | h <;>
      simp [coerceValue, h, hnum, hallow, hmem, okBind]
  · intro hcontains
    have hmem : v ∈ l := by simpa using hcontains
    rcases hty with h | h | h <;>
      simp [coerceValue, h, hnum, hallow, hmem, okBind]

theorem c10_allow_list_numeric_witness :
    coerceValue tMeta 1 5 { found := true, source := .sParam, valueList := ["3"] } =
      .error (.optionInvalidValue
        (sq ++ "3" ++ sq ++ " is not allowed for " ++ sq ++ tMeta.optionName 5 ++ sq ++
          " option")) ∧
    coerceValue tMeta 1 6 { found := true, source := .sParam, valueList := ["8kb"] } =
      .error (.optionInvalidValue
        (sq ++ "8192" ++ sq ++ " is not allowed for " ++ sq ++ tMeta.optionName 6 ++ sq ++
          " option")) :=
  ⟨(c10_allow_list_numeric tMeta 1 5 { found := true, source := .sParam, valueList := ["3"] }
      (["1", "2", "4"]) ("3") 3 (Or.inl rfl) rfl rfl).1 (by decide),
   (c10_allow_list_numeric tMeta 1 6 { found := true, source := .sParam, valueList := ["8kb"] }
      (["16384", "32768"]) ("8192") 8192 (Or.inr (Or.inr rfl)) rfl rfl).1
      (by decide)⟩

theorem povInv_empty (meta : Meta) (id : Nat) : PovInv meta id {} :=
  ⟨fun h => Bool.noConfusion h, fun _ => ⟨rfl, rfl⟩, fun h => Bool.noConfusion h.1⟩

theorem tableInv_empty (meta : Meta) : TableInv meta tEmpty := by
  intro id idx
  have he : tGet tEmpty id idx = ({} : ParseOptionValue) := by
    show List.getD [] idx ({} : ParseOptionValue) = {}
    exact List.getD_eq_default _ _ (by simp)
  rw [he]
  exact povInv_empty meta id

theorem tableInv_set {meta : Meta} {tbl : PTable} {i j : Nat} {v : ParseOptionValue}
    (hinv : TableInv meta tbl) (hv : PovInv meta i v) : TableInv meta (tSet tbl i j v) := by
  intro id idx
  by_cases hid : id = i
  · by_cases hidx : idx = j
    · subst hid; subst hidx
      rw [tGet_tSet_self]
      exact hv
    · rw [tGet_tSet_ne _ _ _ _ _ _ (Or.inr fun hc => hidx hc.symm)]
      exact hinv id idx
  · rw [tGet_tSet_ne _ _ _ _ _ _ (Or.inl fun hc => hid hc.symm)]
    exact hinv id idx

theorem povInv_param_write {meta : Meta} {id : Nat} {p : ParseOptionValue}
    (hsrc : p.source = .sParam) (hnr : ¬(p.negate = true ∧ p.reset = true))
    (hf : p.found = true) : PovInv meta id p := by
  refine ⟨fun _ => Or.inr hsrc, fun hp => ?_, hnr⟩
  rw [hp] at hf
  exact Bool.noConfusion hf

theorem povInv_valueList {meta : Meta} {id : Nat} {old : ParseOptionValue}
    (h : PovInv meta id old) (vl : List String) :
    PovInv meta id { old with valueList := vl } := by
  obtain ⟨h1, h2, h3⟩ := h
  exact ⟨h1, h2, h3⟩

theorem povInv_unfound_write {meta : Meta} {id : Nat} {old p : ParseOptionValue}
    (hold : PovInv meta id old) (hfd : old.found = false)
    (hneg : p.negate = old.negate ∨ (p.negate = true ∧ meta.optType id = .boolean))
    (hres : p.reset = old.reset) (hf : p.found = true) : PovInv meta id p := by
  obtain ⟨h1, h2, h3⟩ := hold
  obtain ⟨hn0, hr0⟩ := h2 hfd
  refine ⟨?_, ?_, ?_⟩
  · intro hp
    rcases hneg with hq | hq
    · rw [hq, hn0] at hp
      exact Bool.noConfusion hp
    · exact Or.inl hq.2
  · intro hp
    rw [hp] at hf
    exact Bool.noConfusion hf
  · intro hp
    rw [hres, hr0] at hp
    exact Bool.noConfusion hp.2

theorem phase1Word_table {meta : Meta} {st : P1State} {tok : String} {s : P1State}
    (h : phase1Word meta st tok = .ok s) : s.table = st.table := by
  simp only [phase1Word] at h
  repeat' split at h
  all_goals try simp only [reduceCtorEq] at h
  all_goals injection h with h2
  all_goals subst h2
  all_goals rfl

theorem phase1Opt_inv {meta : Meta} {st : P1State} {optId optIdx : Nat}
    {negate reset hasArg : Bool} {argVal : String} {st' : P1State}
    (h : phase1Opt meta st optId optIdx negate reset hasArg argVal = .ok st')
    (hinv : TableInv meta st.table) (hnr : ¬(negate = true ∧ reset = true)) :
    TableInv meta st'.table := by
  simp only [phase1Opt] at h
  repeat' split at h
  all_goals try simp only [reduceCtorEq] at h
  all_goals injection h with h2
  all_goals subst h2
  all_goals try exact tableInv_set hinv (povInv_param_write rfl hnr rfl)
  all_goals exact tableInv_set hinv (povInv_valueList (hinv optId optIdx) _)

theorem phase1Arg_inv {meta : Meta} {st : P1State} {a : Arg} {st' : P1State}
    (h : phase1Arg meta st a = .ok st') (hinv : TableInv meta st.table) (hok : ArgOk a) :
    TableInv meta st'.table := by
  unfold phase1Arg at h
  cases a with
  | word tok =>
    dsimp only at h
    cases hw : phase1Word meta st tok with
    | error e =>
      rw [hw] at h
      exact absurd h (fun hc => Except.noConfusion hc)
    | ok s =>
      rw [hw] at h
      simp only [Except.map] at h
      rw [← Except.ok.inj h]
      show TableInv meta s.table
      rw [phase1Word_table hw]
      exact hinv
  | unknownOpt tok =>
    dsimp only at h
    simp only [Except.map] at h
    exact absurd h (fun hc => Except.noConfusion hc)
  | missingArg tok =>
    dsimp only at h
    simp only [Except.map] at h
    exact absurd h (fun hc => Except.noConfusion hc)
  | opt optId optIdx negate reset hasArg argVal =>
    dsimp only at h
    cases hw : phase1Opt meta st optId optIdx negate reset hasArg argVal with
    | error e =>
      rw [hw] at h
      exact absurd h (fun hc => Except.noConfusion hc)
    | ok s =>
      rw [hw] at h
      simp only [Except.map] at h
      rw [← Except.ok.inj h]
      show TableInv meta s.table
      exact phase1Opt_inv hw hinv hok

theorem phase1Loop_inv {meta : Meta} :
    ∀ {args : List Arg} {st st' : P1State}, phase1Loop meta st args = .ok st' →
      TableInv meta st.table → (∀ a ∈ args, ArgOk a) → TableInv meta st'.table := by
  intro args
  induction args with
  | nil =>
    intro st st' h hinv _
    exact (Except.ok.inj h) ▸ hinv
  | cons a rest ih =>
    intro st st' h hinv hargs
    unfold phase1Loop at h
    cases ha : phase1Arg meta st a with
    | error e =>
      rw [ha] at h
      exact absurd h (fun hc => Except.noConfusion hc)
    | ok s1 =>
      rw [ha] at h
      exact ih h (phase1Arg_inv ha hinv (hargs a (by simp)))
        (fun x hx => hargs x (by simp [hx]))

theorem phase1Params_state {meta : Meta} {st s : P1State}
    (h : phase1Params meta st = .ok s) : s = st := by
  unfold phase1Params at h
  repeat' split at h
  all_goals try simp only [reduceCtorEq] at h
  all_goals exact (Except.ok.inj h).symm

theorem phase1Post_table {meta : Meta} {st0 s : P1State}
    (h : phase1Post meta st0 = .ok s) : s.table = st0.table := by
  unfold phase1Post at h
  repeat' split at h
  all_goals try simp only [reduceCtorEq] at h
  all_goals simp [phase1Params_state h]

theorem phase1_inv {meta : Meta} {args : List Arg} {st : P1State}
    (h : phase1 meta args = .ok st) (hargs : ∀ a ∈ args, ArgOk a) :
    TableInv meta st.table := by
  unfold phase1 at h
  cases hl : phase1Loop meta {} args with
  | error e =>
    rw [hl] at h
    exact absurd h (fun hc => Except.noConfusion hc)
  | ok st0 =>
    rw [hl] at h
    rw [phase1Post_table h]
    exact phase1Loop_inv hl (tableInv_empty meta) hargs

theorem phase2KeyVal_inv {meta : Meta} {cmd : Nat} {tbl : PTable} {key value : String}
    {tbl' : PTable} (h : phase2KeyVal meta cmd tbl key value = .ok tbl')
    (hinv : TableInv meta tbl) : TableInv meta tbl' := by
  unfold phase2KeyVal at h
  split at h
  · exact (Except.ok.inj h) ▸ hinv
  next ent hfn =>
    by_cases hneg : ent.negate = true
    · rw [if_pos hneg] at h
      exact (Except.ok.inj h) ▸ hinv
    · rw [if_neg hneg] at h
      by_cases hres : ent.reset = true
      · rw [if_pos hres] at h
        exact (Except.ok.inj h) ▸ hinv
      · rw [if_neg hres] at h
        by_cases hval : (!meta.validFor cmd ent.optId) = true
        · rw [if_pos hval] at h
          exact (Except.ok.inj h) ▸ hinv
        · rw [if_neg hval] at h
          by_cases hlen : value.length = 0
          · rw [if_pos hlen] at h
            exact absurd h (fun hc => Except.noConfusion hc)
          · rw [if_neg hlen] at h
            by_cases hfd : (tGet tbl ent.optId ent.optIdx).found = true
            · rw [if_pos hfd] at h
              exact (Except.ok.inj h) ▸ hinv
            · rw [if_neg hfd] at h
              have hfd2 : (tGet tbl ent.optId ent.optIdx).found = false := by
                simpa using hfd
              by_cases hbool : meta.optType ent.optId = OptType.boolean
              · rw [if_pos hbool] at h
                by_cases hn : value = "n"
                · rw [if_pos hn] at h
                  rw [← Except.ok.inj h]
                  exact tableInv_set hinv
                    (povInv_unfound_write (hinv ent.optId ent.optIdx) hfd2
                      (Or.inr ⟨rfl, hbool⟩) rfl rfl)
                · rw [if_neg hn] at h
                  by_cases hy : value = "y"
                  · rw [if_pos hy] at h
                    rw [← Except.ok.inj h]
                    exact tableInv_set hinv
                      (povInv_unfound_write (hinv ent.optId ent.optIdx) hfd2
                        (Or.inl rfl) rfl rfl)
                  · rw [if_neg hy] at h
                    exact absurd h (fun hc => Except.noConfusion hc)
              · rw [if_neg hbool] at h
                by_cases hmul : meta.multi ent.optId = true
                · rw [if_pos hmul] at h
                  rw [← Except.ok.inj h]
                  exact tableInv_set hinv
                    (povInv_unfound_write (hinv ent.optId ent.optIdx) hfd2
                      (Or.inl rfl) rfl rfl)
                · rw [if_neg hmul] at h
                  rw [← Except.ok.inj h]
                  exact tableInv_set hinv
                    (povInv_unfound_write (hinv ent.optId ent.optIdx) hfd2
                      (Or.inl rfl) rfl rfl)

theorem phase2Entry_inv {meta : Meta} {cmd : Nat} {tbl : PTable} {e : String}
    {tbl' : PTable} (h : phase2Entry meta cmd tbl e = .ok tbl')
    (hinv : TableInv meta tbl) : TableInv meta tbl' := by
  unfold phase2Entry at h
  split at h
  · exact (Except.ok.inj h) ▸ hinv
  · split at h
    · simp only [reduceCtorEq] at h
    · exact phase2KeyVal_inv h hinv

theorem phase2_inv {meta : Meta} {cmd : Nat} :
    ∀ {env : List String} {tbl tbl' : PTable}, phase2 meta cmd tbl env = .ok tbl' →
      TableInv meta tbl → TableInv meta tbl' := by
  intro env
  induction env with
  | nil =>
    intro tbl tbl' h hinv
    exact (Except.ok.inj h) ▸ hinv
  | cons e rest ih =>
    intro tbl tbl' h hinv
    unfold phase2 at h
    cases he : phase2Entry meta cmd tbl e with
    | error err =>
      rw [he] at h
      exact absurd h (fun hc => Except.noConfusion hc)
    | ok t1 =>
      rw [he] at h
      exact ih h (phase2Entry_inv he hinv)

theorem phase3Key_inv {meta : Meta} {cmd : Nat} {ini : Ini} {secName : String}
    {tbl : PTable} {fnd : List (Nat × String)} {acc' : PTable × List (Nat × String)}
    {key : String}
    (h : phase3Key meta cmd ini secName tbl fnd key = .ok acc')
    (hinv : TableInv meta tbl) : TableInv meta acc'.1 := by
  unfold phase3Key at h
  split at h
  · exact congrArg Prod.fst (Except.ok.inj h) ▸ hinv
  next ent hfn =>
    by_cases hneg : ent.negate = true
    · rw [if_pos hneg] at h
      exact congrArg Prod.fst (Except.ok.inj h) ▸ hinv
    · rw [if_neg hneg] at h
      by_cases hres : ent.reset = true
      · rw [if_pos hres] at h
        exact congrArg Prod.fst (Except.ok.inj h) ▸ hinv
      · rw [if_neg hres] at h
        by_cases hcl : meta.optSec ent.optId = OptSec.commandLine
        · rw [if_pos hcl] at h
          exact congrArg Prod.fst (Except.ok.inj h) ▸ hinv
        · rw [if_neg hcl] at h
          cases hlk : List.lookup ent.optId fnd with
          | some prev =>
            rw [hlk] at h
            exact absurd h (fun hc => Except.noConfusion hc)
          | none =>
            rw [hlk] at h
            dsimp only at h
            by_cases hval : (!meta.validFor cmd ent.optId) = true
            · rw [if_pos hval] at h
              exact congrArg Prod.fst (Except.ok.inj h) ▸ hinv
            · rw [if_neg hval] at h
              by_cases hst : (decide (meta.optSec ent.optId = OptSec.stanza) &&
                  strStarts secName ("global")) = true
              · rw [if_pos hst] at h
                exact congrArg Prod.fst (Except.ok.inj h) ▸ hinv
              · rw [if_neg hst] at h
                by_cases hfd : (tGet tbl ent.optId ent.optIdx).found = true
                · rw [if_pos hfd] at h
                  exact congrArg Prod.fst (Except.ok.inj h) ▸ hinv
                · rw [if_neg hfd] at h
                  have hfd2 : (tGet tbl ent.optId ent.optIdx).found = false := by
                    simpa using hfd
                  by_cases hisl : ini.isList secName key = true
                  · rw [if_pos hisl] at h
                    by_cases hmul : (!meta.multi ent.optId) = true
                    · rw [if_pos hmul] at h
                      exact absurd h (fun hc => Except.noConfusion hc)
                    · rw [if_neg hmul] at h
                      rw [← congrArg Prod.fst (Except.ok.inj h)]
                      exact tableInv_set hinv
                        (povInv_unfound_write (hinv ent.optId ent.optIdx) hfd2
                          (Or.inl rfl) rfl rfl)
                  · rw [if_neg hisl] at h
                    by_cases hel : (ini.get secName key).length = 0
                    · rw [if_pos hel] at h
                      exact absurd h (fun hc => Except.noConfusion hc)
                    · rw [if_neg hel] at h
                      by_cases hbool : meta.optType ent.optId = OptType.boolean
                      · rw [if_pos hbool] at h
                        by_cases hn : ini.get secName key = "n"
                        · rw [if_pos hn] at h
                          rw [← congrArg Prod.fst (Except.ok.inj h)]
                          exact tableInv_set hinv
                            (povInv_unfound_write (hinv ent.optId ent.optIdx) hfd2
                              (Or.inr ⟨rfl, hbool⟩) rfl rfl)
                        · rw [if_neg hn] at h
                          by_cases hy : ini.get secName key = "y"
                          · rw [if_pos hy] at h
                            rw [← congrArg Prod.fst (Except.ok.inj h)]
                            exact tableInv_set hinv
                              (povInv_unfound_write (hinv ent.optId ent.optIdx) hfd2
                                (Or.inl rfl) rfl rfl)
                          · rw [if_neg hy] at h
                            exact absurd h (fun hc => Except.noConfusion hc)
                      · rw [if_neg hbool] at h
                        rw [← congrArg Prod.fst (Except.ok.inj h)]
                        exact tableInv_set hinv
                          (povInv_unfound_write (hinv ent.optId ent.optIdx) hfd2
                            (Or.inl rfl) rfl rfl)

theorem phase3Keys_inv {meta : Meta} {cmd : Nat} {ini : Ini} {secName : String} :
    ∀ {keys : List String} {tbl : PTable} {fnd : List (Nat × String)}
      {acc' : PTable × List (Nat × String)},
      phase3Keys meta cmd ini secName tbl fnd keys = .ok acc' →
      TableInv meta tbl → TableInv meta acc'.1 := by
  intro keys
  induction keys with
  | nil =>
    intro tbl fnd acc' h hinv
    exact congrArg Prod.fst (Except.ok.inj h) ▸ hinv
  | cons k rest ih =>
    intro tbl fnd acc' h hinv
    unfold phase3Keys at h
    cases hk : phase3Key meta cmd ini secName tbl fnd k with
    | error err =>
      rw [hk] at h
      exact absurd h (fun hc => Except.noConfusion hc)
    | ok acc1 =>
      rw [hk] at h
      exact ih h (phase3Key_inv hk hinv)

theorem phase3Section_inv {meta : Meta} {cmd : Nat} {ini : Ini} {tbl : PTable}
    {secName : String} {tbl' : PTable}
    (h : phase3Section meta cmd ini tbl secName = .ok tbl')
    (hinv : TableInv meta tbl) : TableInv meta tbl' := by
  unfold phase3Section at h
  cases hk : phase3Keys meta cmd ini secName tbl [] (ini.sectionKeys secName) with
  | error err =>
    rw [hk] at h
    exact absurd h (fun hc => Except.noConfusion hc)
  | ok acc =>
    rw [hk] at h
    exact (Except.ok.inj h) ▸ phase3Keys_inv hk hinv

theorem phase3Sections_inv {meta : Meta} {cmd : Nat} {ini : Ini} :
    ∀ {secs : List String} {tbl tbl' : PTable},
      phase3Sections meta cmd ini tbl secs = .ok tbl' →
      TableInv meta tbl → TableInv meta tbl' := by
  intro secs
  induction secs with
  | nil =>
    intro tbl tbl' h hinv
    exact (Except.ok.inj h) ▸ hinv
  | cons sname rest ih =>
    intro tbl tbl' h hinv
    unfold phase3Sections at h
    cases hs : phase3Section meta cmd ini tbl sname with
    | error err =>
      rw [hs] at h
      exact absurd h (fun hc => Except.noConfusion hc)
    | ok t1 =>
      rw [hs] at h
      exact ih h (phase3Section_inv hs hinv)

theorem phase3_inv {meta : Meta} {cmd : Nat} {iniOf : String → Option Ini} {fs : Storage}
    {tbl tbl' : PTable} (h : phase3 meta cmd iniOf fs tbl = .ok tbl')
    (hinv : TableInv meta tbl) : TableInv meta tbl' := by
  unfold phase3 at h
  repeat' split at h
  all_goals try exact absurd h (fun hc => Except.noConfusion hc)
  all_goals try exact (Except.ok.inj h) ▸ hinv
  all_goals exact phase3Sections_inv h hinv

/-- C4: the unset branch of phase 5.  Parts 1-3 establish the staging-table
invariant: after phase 1 (on a well-formed argument stream) the invariant
holds, and phases 2 and 3 preserve it.  Part 4: when the dependency resolves
and the option is not set, resolution is exactly `commitUnset`.  Parts 5-8,
under the invariant: a negated record commits null with source Param; else a
command default commits with source Default; else a required option (help not
requested) raises `OptionRequiredError` naming command and option, with the
stanza hint appended exactly when the option lives in the stanza section. -/
theorem c4_unset_commit (meta : Meta) (cmd id : Nat) (help : Bool)
    (committed : Nat → Option Variant) (pov : ParseOptionValue) (d : String)
    (args : List Arg) (st : P1State) (env : List String) (tbl tbl2 tbl3 : PTable)
    (iniOf : String → Option Ini) (fs : Storage) :
    ((∀ a ∈ args, ArgOk a) → phase1 meta args = .ok st → TableInv meta st.table) ∧
    (phase2 meta cmd tbl env = .ok tbl2 → TableInv meta tbl → TableInv meta tbl2) ∧
    (phase3 meta cmd iniOf fs tbl = .ok tbl3 → TableInv meta tbl →
      TableInv meta tbl3) ∧
    (dependResolve meta cmd committed id (optionSetOf meta id pov) pov.source = .ok true →
      optionSetOf meta id pov = false →
      resolveOne meta cmd help committed id pov = commitUnset meta cmd id help pov) ∧
    (PovInv meta id pov → optionSetOf meta id pov = false → pov.negate = true →
      commitUnset meta cmd id help pov =
        .ok { negate := true, reset := pov.reset, source := .sParam, value := none }) ∧
    (pov.negate = false → meta.defaultOf cmd id = some d →
      commitUnset meta cmd id help pov =
        .ok { negate := false, reset := pov.reset, source := .sDefault,
              value := some (.vStr d) }) ∧
    (pov.negate = false → meta.defaultOf cmd id = none →
      meta.requiredFor cmd id = true → help = false → meta.optSec id = .stanza →
      commitUnset meta cmd id help pov =
        .error (.optionRequired (meta.cmdName cmd ++ " command requires option: " ++
          meta.optionName id ++ "\nHINT: does this stanza exist?"))) ∧
    (pov.negate = false → meta.defaultOf cmd id = none →
      meta.requiredFor cmd id = true → help = false → meta.optSec id ≠ .stanza →
      commitUnset meta cmd id help pov =
        .error (.optionRequired (meta.cmdName cmd ++ " command requires option: " ++
          meta.optionName id))) := by
  refine ⟨?_, ?_, ?_, ?_, ?_, ?_, ?_, ?_⟩
  · intro hargs h
    exact phase1_inv h hargs
  · intro h hinv
    exact phase2_inv h hinv
  · intro h hinv
    exact phase3_inv h hinv
  · intro hdep hset
    rw [hset] at hdep
    simp [resolveOne, hset, hdep, okBind]
  · intro hpinv hset hneg
    obtain ⟨h1, h2, h3⟩ := hpinv
    have hsrc : pov.source = .sParam := by
      rcases h1 hneg with hb | hs
      · by_cases hf : pov.found = true
        · by_cases hr : pov.reset = true
          · exact absurd ⟨hneg, hr⟩ h3
          · exfalso
            have hr2 : pov.reset = false := by simpa using hr
            simp [optionSetOf, hf, hb, hr2] at hset
        · have hn0 := (h2 (by simpa using hf)).1
          rw [hn0] at hneg
          exact Bool.noConfusion hneg
      · exact hs
    simp [commitUnset, hneg, hsrc]
  · intro hneg hdef
    simp [commitUnset, hneg, hdef]
  · intro hneg hdef hreq hhelp hsec
    simp [commitUnset, hneg, hdef, hreq, hhelp, hsec]
  · intro hneg hdef hreq hhelp hsec
    simp [commitUnset, hneg, hdef, hreq, hhelp, hsec]

theorem c4_unset_commit_witness :
    commitUnset tMeta 4 7 false
        { found := true, negate := true, reset := false, source := .sParam, valueList := [] } =
      .ok { negate := true, reset := false, source := .sParam, value := none } ∧
    commitUnset tMeta 1 4 false {} =
      .ok { negate := false, reset := false, source := .sDefault,
            value := some (.vStr "y") } ∧
    commitUnset tMeta 1 9 false {} =
      .error (.optionRequired (tMeta.cmdName 1 ++ " command requires option: " ++
        tMeta.optionName 9 ++ "\nHINT: does this stanza exist?")) :=
  ⟨(c4_unset_commit tMeta 4 7 false (fun _ => none)
      { found := true, negate := true, reset := false, source := .sParam, valueList := [] }
      ("") [] {} [] tEmpty tEmpty tEmpty (fun _ => none)
      ⟨fun _ => none, fun _ => none⟩).2.2.2.2.1
      ⟨fun _ => Or.inr rfl, fun hf => Bool.noConfusion hf, fun hp => Bool.noConfusion hp.2⟩
      (by decide) rfl,
   (c4_unset_commit tMeta 1 4 false (fun _ => none) {} ("y") [] {} [] tEmpty tEmpty tEmpty
      (fun _ => none) ⟨fun _ => none, fun _ => none⟩).2.2.2.2.2.1 rfl rfl,
   (c4_unset_commit tMeta 1 9 false (fun _ => none) {} ("") [] {} [] tEmpty tEmpty tEmpty
      (fun _ => none) ⟨fun _ => none, fun _ => none⟩).2.2.2.2.2.2.1 rfl rfl (by decide)
      rfl rfl⟩

theorem c2_phase1_repeat_rules_witness :
    phase1Opt tMeta
        { table := tSet tEmpty 4 0
            { found := true, negate := true, reset := false, source := .sParam,
              valueList := [] } }
        4 0 true false false "" =
      .error (.optionInvalid ("option " ++ sq ++ tMeta.optionIdxName 4 0 ++ sq ++
        " is negated multiple times")) ∧
    phase1Opt tMeta
        { table := tSet tEmpty 4 0
            { found := true, negate := false, reset := false, source := .sParam,
              valueList := ["y"] } }
        4 0 false false true "n" =
      .error (.optionInvalid ("option " ++ sq ++ tMeta.optionIdxName 4 0 ++ sq ++
        " cannot be set multiple times")) ∧
    phase1Opt tMeta
        { table := tSet tEmpty 10 0
            { found := true, negate := false, reset := false, source := .sParam,
              valueList := ["a=1"] } }
        10 0 false false true "b=2" =
      .ok { table := (tSet (tSet tEmpty 10 0 { found := true, negate := false, reset := false, source := .sParam, valueList := ["a=1"] }) 10 0 { found := true, negate := false, reset := false, source := .sParam, valueList := ["a=1", "b=2"] }) } :=
  ⟨(c2_phase1_repeat_rules tMeta
      { table := tSet tEmpty 4 0
          { found := true, negate := true, reset := false, source := .sParam,
            valueList := [] } }
      4 0 true false false ""
      { found := true, negate := true, reset := false, source := .sParam, valueList := [] }
      rfl rfl rfl (fun hp => Bool.noConfusion hp.2) (fun hp => Bool.noConfusion hp.2)).1
      rfl rfl,
   (c2_phase1_repeat_rules tMeta
      { table := tSet tEmpty 4 0
          { found := true, negate := false, reset := false, source := .sParam,
            valueList := ["y"] } }
      4 0 false false true "n"
      { found := true, negate := false, reset := false, source := .sParam,
        valueList := ["y"] }
      rfl rfl rfl (fun hp => Bool.noConfusion hp.1)
      (fun hp => Bool.noConfusion hp.1)).2.2.2.2.2.1 rfl rfl rfl rfl rfl,
   (c2_phase1_repeat_rules tMeta
      { table := tSet tEmpty 10 0
          { found := true, negate := false, reset := false, source := .sParam,
            valueList := ["a=1"] } }
      10 0 false false true "b=2"
      { found := true, negate := false, reset := false, source := .sParam,
        valueList := ["a=1"] }
      rfl rfl rfl (fun hp => Bool.noConfusion hp.1)
      (fun hp => Bool.noConfusion hp.1)).2.2.2.2.2.2 rfl rfl rfl rfl rfl rfl⟩

theorem c5_size_parser_amended_witness :
    (exceptOk (convertToByte ("10kB")) = sizeAccepts ("10kB")) ∧
    (convertToByte ("10x") = .error (.notValid ("10x"))) ∧
    (convertToByte (String.mk ['4', '2']) =
      .ok (toString (digitsToNat ['4', '2']), digitsToNat ['4', '2'])) ∧
    (strToInt64 (String.mk ['4', '2']) =
      (if digitsToNat ['4', '2'] < 2 ^ 63 then some ((digitsToNat ['4', '2'] : Int))
       else none)) ∧
    (convertToByte (String.mk (['4'] ++ ['m'])) =
      .ok (toString (digitsToNat ['4'] * multC 'm'), digitsToNat ['4'] * multC 'm')) ∧
    (convertToByte (String.mk (['4'] ++ ['m', 'b'])) =
      .ok (toString (digitsToNat ['4'] * multC 'm'), digitsToNat ['4'] * multC 'm')) :=
  ⟨c5_size_parser_amended.1 ("10kB"),
   c5_size_parser_amended.2.1 ("10x") (by decide),
   (c5_size_parser_amended.2.2.2.1 ['4', '2'] (by decide) (by decide)).1,
   (c5_size_parser_amended.2.2.2.1 ['4', '2'] (by decide) (by decide)).2,
   (c5_size_parser_amended.2.2.2.2 ['4'] ('m') (by decide) (by decide) (by decide)).1,
   (c5_size_parser_amended.2.2.2.2 ['4'] ('m') (by decide) (by decide) (by decide)).2⟩

end PgbParse
